import Mathlib

/-!
Shallow embedding of the MBP reconstruction core (order book, action engine,
snapshot emitter) from the C++ sources `order.hpp`, `order_book.hpp`,
`action_engine.hpp` and `snapshot.hpp`, together with proofs about the
frozen claims.

Modelling conventions:
* `uint64_t`/`uint32_t` quantities (ids, sizes, timestamps, counters) are `Nat`;
  `int64_t` prices are `Int`.  The only subtractions performed by the code
  (`total_size -= order->size`, `order->size -= remaining`,
  `remaining -= order->size`, `total_size - old_size + new_size`) are all
  guarded by the code or by the book's bookkeeping invariant so that they never
  underflow on the states the theorems quantify over; they are written with
  truncated `Nat` subtraction, which agrees with the machine there.
* `std::map` side maps become association lists ordered by the side's
  comparator; `operator[]`, `find`, `erase` become list operations on the key.
* The `order_map_` hash map stores raw pointers to the unique chained `Order`
  node of each resting id; since an id is registered exactly when its order is
  chained in a level, the lookup is modelled as a search through the two side
  maps (bids first, then asks) returning the node's current contents.
* The `OrderPool`, the mutable top-10 cache (`cache_valid_`/`update_cache`,
  a pure memoisation of the first ten levels of each side), and the
  diagnostic-only counters of `OrderBook` are not part of the observable
  state and are omitted.
-/

namespace MBP

/-- `Order` from `order.hpp`: a resting order.  The intrusive `next`/`prev`
chain pointers are represented by the order's position in its level's
`orders` list. -/
structure Order where
  order_id : Nat
  price_raw : Int
  size : Nat
  original_size : Nat
  timestamp_ns : Nat
deriving Repr, DecidableEq

/-- The `Order(oid, px, sz, ts)` constructor: `original_size` is set to the
creation size. -/
def Order.mkNew (oid : Nat) (px : Int) (sz : Nat) (ts : Nat) : Order :=
  ⟨oid, px, sz, sz, ts⟩

/-- `Level` from `order.hpp`: a price level with its stored aggregates and its
FIFO chain (`orders.head? = first_order`, last element = `last_order`). -/
structure Level where
  price_raw : Int
  total_size : Nat
  order_count : Nat
  orders : List Order
deriving Repr, DecidableEq

/-- The default `Level()` constructor followed by `price_raw = px` (as done by
`add_to_side` on a freshly default-constructed map slot). -/
def Level.emptyAt (px : Int) : Level := ⟨px, 0, 0, []⟩

/-- `Level::add_order`: append at the tail of the chain, add the order's size
to `total_size`, bump `order_count`. -/
def Level.add_order (l : Level) (o : Order) : Level :=
  { l with orders := l.orders ++ [o]
         , total_size := l.total_size + o.size
         , order_count := l.order_count + 1 }

/-- `Level::remove_order`: unlink the given node (the first chained order
carrying its id), subtract its size, decrement the count. -/
def Level.remove_order (l : Level) (o : Order) : Level :=
  { l with orders := l.orders.eraseP (fun x => x.order_id == o.order_id)
         , total_size := l.total_size - o.size
         , order_count := l.order_count - 1 }

/-- `Level::modify_order_size`: the level only adjusts `total_size`; the
order node itself is updated by the caller. -/
def Level.modify_order_size (l : Level) (old_size new_size : Nat) : Level :=
  { l with total_size := l.total_size - old_size + new_size }

/-- `Level::empty`. -/
def Level.empty (l : Level) : Bool := l.order_count == 0

/-- `BidComparator` from `order.hpp`: higher prices first. -/
def BidComparator (a b : Int) : Bool := decide (a > b)

/-- `AskComparator` from `order.hpp`: lower prices first. -/
def AskComparator (a b : Int) : Bool := decide (a < b)

/-- One side of the book: `std::map<int64_t, Level, Cmp>` as an association
list kept in the comparator's order. -/
abbrev SideMap := List (Int × Level)

/-- `levels.find(p)` on a side map. -/
def findLevel (levels : SideMap) (p : Int) : Option Level :=
  (levels.find? (fun e => e.1 == p)).map Prod.snd

/-- `levels.erase(it)` for the entry keyed `p`. -/
def eraseLevel (levels : SideMap) (p : Int) : SideMap :=
  levels.eraseP (fun e => e.1 == p)

/-- In-place mutation of the `Level` value stored at key `p`. -/
def updateLevel (levels : SideMap) (p : Int) (l : Level) : SideMap :=
  levels.map (fun e => if e.1 == p then (p, l) else e)

/-- `std::map` insertion of a fresh key, keeping the comparator order
(`lt` is the map's comparator). -/
def insertLevelSorted (lt : Int → Int → Bool) (p : Int) (l : Level) :
    SideMap → SideMap
  | [] => [(p, l)]
  | e :: rest =>
      if lt p e.1 then (p, l) :: e :: rest else e :: insertLevelSorted lt p l rest

/-- `OrderBook` state: the two side maps.  (`order_map_` is derived, see the
file header.) -/
structure OrderBook where
  bid_levels : SideMap
  ask_levels : SideMap
deriving Repr, DecidableEq

/-- A freshly constructed `OrderBook`. -/
def OrderBook.init : OrderBook := ⟨[], []⟩

/-- Search one side's chains for the resting order with the given id. -/
def findOrderInSide (levels : SideMap) (oid : Nat) : Option Order :=
  levels.findSome? (fun e => e.2.orders.find? (fun o => o.order_id == oid))

/-- The `order_map_` lookup: the chained node carrying `oid`, bids searched
before asks. -/
def OrderBook.findOrder (b : OrderBook) (oid : Nat) : Option Order :=
  (findOrderInSide b.bid_levels oid).orElse
    (fun _ => findOrderInSide b.ask_levels oid)

/-- `OrderBook::add_to_side`: `levels[price]` (default-constructing and keying
the level when absent / empty), then `Level::add_order`.  Returns `true`
unconditionally, as the source does. -/
def add_to_side (o : Order) (lt : Int → Int → Bool) (levels : SideMap) :
    Bool × SideMap :=
  match findLevel levels o.price_raw with
  | some l =>
      let l := if l.empty then { l with price_raw := o.price_raw } else l
      (true, updateLevel levels o.price_raw (l.add_order o))
  | none =>
      (true, insertLevelSorted lt o.price_raw
               ((Level.emptyAt o.price_raw).add_order o) levels)

/-- `OrderBook::add_order`. -/
def OrderBook.add_order (b : OrderBook) (order_id : Nat) (price : Int)
    (size : Nat) (side : Char) (timestamp : Nat) : Bool × OrderBook :=
  if (b.findOrder order_id).isSome then (false, b)
  else
    let o := Order.mkNew order_id price size timestamp
    if side == 'B' then
      let r := add_to_side o BidComparator b.bid_levels
      (r.1, { b with bid_levels := r.2 })
    else if side == 'A' then
      let r := add_to_side o AskComparator b.ask_levels
      (r.1, { b with ask_levels := r.2 })
    else (false, b)

/-- `OrderBook::determine_side`: probe the bid map at the order's price and
walk that chain looking for the node; default to ask. -/
def OrderBook.determine_side (b : OrderBook) (o : Order) : Char :=
  match findLevel b.bid_levels o.price_raw with
  | some l => if l.orders.any (fun x => x.order_id == o.order_id) then 'B' else 'A'
  | none => 'A'

/-- The body of `OrderBook::remove_order_from_level` for one side map. -/
def removeFromSide (levels : SideMap) (o : Order) : SideMap :=
  match findLevel levels o.price_raw with
  | some l =>
      let l := l.remove_order o
      if l.empty then eraseLevel levels o.price_raw
      else updateLevel levels o.price_raw l
  | none => levels

/-- `OrderBook::remove_order_from_level`. -/
def OrderBook.remove_order_from_level (b : OrderBook) (o : Order) (side : Char) :
    OrderBook :=
  if side == 'B' then { b with bid_levels := removeFromSide b.bid_levels o }
  else { b with ask_levels := removeFromSide b.ask_levels o }

/-- The pointer write `order->size = new_size` on the chained node: the first
order carrying `oid` gets the new size, everything else is untouched. -/
def setOrderSize (orders : List Order) (oid : Nat) (new_size : Nat) :
    List Order :=
  match orders with
  | [] => []
  | o :: rest =>
      if o.order_id == oid then { o with size := new_size } :: rest
      else o :: setOrderSize rest oid new_size

/-- The same-price branch of `OrderBook::modify_order` on one side map:
`level.modify_order_size(order, old, new); order->size = new`. -/
def modifyInPlace (levels : SideMap) (o : Order) (old_size new_size : Nat) :
    SideMap :=
  match findLevel levels o.price_raw with
  | some l =>
      updateLevel levels o.price_raw
        { l.modify_order_size old_size new_size with
            orders := setOrderSize l.orders o.order_id new_size }
  | none => levels

/-- `OrderBook::modify_order`.  (The `!success` branch after `add_to_side` is
dead code in the source, since `add_to_side` returns `true`; it is kept for
faithfulness.) -/
def OrderBook.modify_order (b : OrderBook) (order_id : Nat) (new_price : Int)
    (new_size : Nat) : Bool × OrderBook :=
  match b.findOrder order_id with
  | none => (false, b)
  | some o =>
      if o.price_raw != new_price then
        let side := b.determine_side o
        let b1 := b.remove_order_from_level o side
        let o2 : Order := { o with price_raw := new_price, size := new_size }
        let r :=
          if side == 'B' then
            let r := add_to_side o2 BidComparator b1.bid_levels
            (r.1, { b1 with bid_levels := r.2 })
          else
            let r := add_to_side o2 AskComparator b1.ask_levels
            (r.1, { b1 with ask_levels := r.2 })
        if r.1 then (true, r.2) else (false, r.2)
      else
        let side := b.determine_side o
        if side == 'B' then
          (true, { b with bid_levels := modifyInPlace b.bid_levels o o.size new_size })
        else
          (true, { b with ask_levels := modifyInPlace b.ask_levels o o.size new_size })

/-- `OrderBook::cancel_order`. -/
def OrderBook.cancel_order (b : OrderBook) (order_id : Nat) : Bool × OrderBook :=
  match b.findOrder order_id with
  | none => (false, b)
  | some o =>
      let side := b.determine_side o
      (true, b.remove_order_from_level o side)

/-- The body of the
`while (remaining_size > 0 && level.first_order != nullptr)` loop of
`OrderBook::execute_trade_on_side`, structurally recursive on a fuel bound:
every iteration that continues removes the chain's head, so the chain length
bounds the number of iterations. -/
def tradeLoopFuel : Nat → Nat → Level → Level
  | 0, _, l => l
  | fuel + 1, remaining, l =>
      if remaining = 0 then l
      else
        match l.orders with
        | [] => l
        | o :: rest =>
            if o.size ≤ remaining then
              tradeLoopFuel fuel (remaining - o.size) (l.remove_order o)
            else
              { l.modify_order_size o.size (o.size - remaining) with
                  orders := { o with size := o.size - remaining } :: rest }

/-- The trade-consumption loop of `OrderBook::execute_trade_on_side`. -/
def tradeLoop (remaining : Nat) (l : Level) : Level :=
  tradeLoopFuel l.orders.length remaining l

/-- `OrderBook::execute_trade_on_side`. -/
def execute_trade_on_side (price : Int) (size : Nat) (levels : SideMap) :
    Bool × SideMap :=
  match findLevel levels price with
  | none => (false, levels)
  | some l =>
      let l2 := tradeLoop size l
      if l2.empty then (true, eraseLevel levels price)
      else (true, updateLevel levels price l2)

/-- `OrderBook::execute_trade`. -/
def OrderBook.execute_trade (b : OrderBook) (price : Int) (size : Nat)
    (aggressor_side : Char) : Bool × OrderBook :=
  let passive_side := if aggressor_side == 'B' then 'A' else 'B'
  if passive_side == 'B' then
    let r := execute_trade_on_side price size b.bid_levels
    (r.1, { b with bid_levels := r.2 })
  else
    let r := execute_trade_on_side price size b.ask_levels
    (r.1, { b with ask_levels := r.2 })

/-- `OrderBook::clear`: every order is released and both side maps are
emptied. -/
def OrderBook.clear (b : OrderBook) : OrderBook :=
  { b with bid_levels := [], ask_levels := [] }

/-- `MBPSnapshot` from `order.hpp`: the four 10-wide arrays become lists of
length 10. -/
structure MBPSnapshot where
  timestamp_ns : Nat
  bid_px : List Int
  bid_sz : List Nat
  ask_px : List Int
  ask_sz : List Nat
deriving Repr, DecidableEq

/-- The zero-filled `MBPSnapshot()` constructor. -/
def MBPSnapshot.initZero : MBPSnapshot :=
  ⟨0, List.replicate 10 0, List.replicate 10 0,
      List.replicate 10 0, List.replicate 10 0⟩

/-- `MBPSnapshot::differs_from`: `memcmp` of the four arrays; the timestamp
is not compared. -/
def MBPSnapshot.differs_from (a other : MBPSnapshot) : Bool :=
  a.bid_px != other.bid_px || a.bid_sz != other.bid_sz ||
  a.ask_px != other.ask_px || a.ask_sz != other.ask_sz

/-- An array filled with `z`, then the first up-to-10 entries of `xs` copied
in (the update-cache fill pattern). -/
def pad10 {α : Type} (z : α) (xs : List α) : List α :=
  xs.take 10 ++ List.replicate (10 - (xs.take 10).length) z

/-- `OrderBook::get_top10_snapshot`: the first up-to-10 levels of each side in
map order, zero-filled.  The lazily rebuilt cache always reflects the maps at
read time (every mutation invalidates it), so it is bypassed here.  The
timestamp field is left at 0; the caller stamps it. -/
def OrderBook.get_top10_snapshot (b : OrderBook) : MBPSnapshot :=
  ⟨0, pad10 0 (b.bid_levels.map Prod.fst),
      pad10 0 (b.bid_levels.map (fun e => e.2.total_size)),
      pad10 0 (b.ask_levels.map Prod.fst),
      pad10 0 (b.ask_levels.map (fun e => e.2.total_size))⟩

/-- `SnapshotManager` state from `snapshot.hpp`. -/
structure SnapshotManager where
  current_snapshot : MBPSnapshot
  previous_snapshot : MBPSnapshot
  has_previous : Bool
  snapshots_generated : Nat
  snapshots_skipped : Nat
deriving Repr, DecidableEq

/-- `SnapshotManager()` constructor. -/
def SnapshotManager.init : SnapshotManager :=
  ⟨MBPSnapshot.initZero, MBPSnapshot.initZero, false, 0, 0⟩

/-- `SnapshotManager::should_generate_snapshot`. -/
def SnapshotManager.should_generate_snapshot (m : SnapshotManager)
    (book : OrderBook) (timestamp : Nat) : Bool × SnapshotManager :=
  let current := { book.get_top10_snapshot with timestamp_ns := timestamp }
  if m.has_previous && !(current.differs_from m.previous_snapshot) then
    (false, { m with current_snapshot := current
                   , snapshots_skipped := m.snapshots_skipped + 1 })
  else
    (true, { m with current_snapshot := current
                  , previous_snapshot := current
                  , has_previous := true
                  , snapshots_generated := m.snapshots_generated + 1 })

/-- `TradeState` from `action_engine.hpp`. -/
inductive TradeState where
  | IDLE
  | TRADE_RECEIVED
  | FILL_RECEIVED
deriving Repr, DecidableEq

/-- `TradeInfo` from `order.hpp`. -/
structure TradeInfo where
  timestamp_ns : Nat
  trade_id : Nat
  price_raw : Int
  size : Nat
  side : Char
  is_aggressor_fill : Bool
deriving Repr, DecidableEq

/-- `Event` from `order.hpp` (the `sequence` and padding bytes carry no
behaviour and are omitted). -/
structure Event where
  timestamp_ns : Nat
  order_id : Nat
  price_raw : Int
  size : Nat
  action : Char
  side : Char
deriving Repr, DecidableEq

/-- `ActionEngine` state (the referenced `OrderBook` is carried inline). -/
structure ActionEngine where
  book : OrderBook
  trade_state : TradeState
  pending_trade : Option TradeInfo
  last_trade_id : Nat
  actions_processed : Nat
  trades_aggregated : Nat
  errors_encountered : Nat
  first_clear_seen : Bool
deriving Repr, DecidableEq

/-- `ActionEngine(book)` constructor over a fresh book. -/
def ActionEngine.init : ActionEngine :=
  ⟨OrderBook.init, .IDLE, none, 0, 0, 0, 0, false⟩

/-- `ActionEngine::handle_add`.  Note the `side == 'N'` early return does not
touch `errors_encountered_`. -/
def ActionEngine.handle_add (s : ActionEngine) (e : Event) : Bool × ActionEngine :=
  if e.side == 'N' then (false, s)
  else
    let r := s.book.add_order e.order_id e.price_raw e.size e.side e.timestamp_ns
    if r.1 then (true, { s with book := r.2 })
    else (false, { s with book := r.2
                        , errors_encountered := s.errors_encountered + 1 })

/-- `ActionEngine::handle_modify`.  As with add, the `side == 'N'` early
return does not touch `errors_encountered_`. -/
def ActionEngine.handle_modify (s : ActionEngine) (e : Event) : Bool × ActionEngine :=
  if e.side == 'N' then (false, s)
  else
    let r := s.book.modify_order e.order_id e.price_raw e.size
    if r.1 then (true, { s with book := r.2 })
    else (false, { s with book := r.2
                        , errors_encountered := s.errors_encountered + 1 })

/-- `ActionEngine::complete_trade_sequence` (the cancel event argument is
unused by the source and omitted). -/
def ActionEngine.complete_trade_sequence (s : ActionEngine) : Bool × ActionEngine :=
  if s.pending_trade.isNone || s.trade_state != TradeState.FILL_RECEIVED then
    (false, { s with errors_encountered := s.errors_encountered + 1
                   , trade_state := .IDLE, pending_trade := none })
  else
    match s.pending_trade with
    | none =>
        (false, { s with errors_encountered := s.errors_encountered + 1
                       , trade_state := .IDLE, pending_trade := none })
    | some p =>
        let r := s.book.execute_trade p.price_raw p.size p.side
        if r.1 then
          (true, { s with book := r.2
                        , trades_aggregated := s.trades_aggregated + 1
                        , trade_state := .IDLE, pending_trade := none })
        else
          (false, { s with book := r.2
                         , errors_encountered := s.errors_encountered + 1
                         , trade_state := .IDLE, pending_trade := none })

/-- `ActionEngine::handle_cancel`. -/
def ActionEngine.handle_cancel (s : ActionEngine) (e : Event) : Bool × ActionEngine :=
  if s.trade_state == TradeState.FILL_RECEIVED then
    s.complete_trade_sequence
  else
    let r := s.book.cancel_order e.order_id
    if r.1 then (true, { s with book := r.2 })
    else (false, { s with book := r.2
                        , errors_encountered := s.errors_encountered + 1 })

/-- `ActionEngine::handle_trade`: unconditionally buffer the event (side
included, unchecked) and move to `TRADE_RECEIVED`. -/
def ActionEngine.handle_trade (s : ActionEngine) (e : Event) : Bool × ActionEngine :=
  (false, { s with trade_state := .TRADE_RECEIVED
                 , pending_trade := some ⟨e.timestamp_ns, e.order_id,
                                          e.price_raw, e.size, e.side, false⟩
                 , last_trade_id := e.order_id })

/-- `ActionEngine::handle_fill`. -/
def ActionEngine.handle_fill (s : ActionEngine) (e : Event) : Bool × ActionEngine :=
  if s.trade_state != TradeState.TRADE_RECEIVED then
    (false, { s with errors_encountered := s.errors_encountered + 1 })
  else if s.pending_trade.isSome && e.order_id == s.last_trade_id then
    (false, { s with trade_state := .FILL_RECEIVED
                   , pending_trade :=
                       s.pending_trade.map (fun p => { p with is_aggressor_fill := true }) })
  else
    (false, { s with trade_state := .IDLE, pending_trade := none
                   , errors_encountered := s.errors_encountered + 1 })

/-- `ActionEngine::handle_clear`. -/
def ActionEngine.handle_clear (s : ActionEngine) (_e : Event) : Bool × ActionEngine :=
  if !s.first_clear_seen then
    (false, { s with first_clear_seen := true })
  else
    (true, { s with book := s.book.clear
                  , trade_state := .IDLE, pending_trade := none })

/-- `ActionEngine::process_event`. -/
def ActionEngine.process_event (s : ActionEngine) (e : Event) : Bool × ActionEngine :=
  let s := { s with actions_processed := s.actions_processed + 1 }
  match e.action with
  | 'A' => s.handle_add e
  | 'M' => s.handle_modify e
  | 'C' => s.handle_cancel e
  | 'T' => s.handle_trade e
  | 'F' => s.handle_fill e
  | 'R' => s.handle_clear e
  | 'N' => (true, s)
  | _ => (false, { s with errors_encountered := s.errors_encountered + 1 })

/-- Fold a list of events through the engine (the driver loop), keeping only
the final state. -/
def ActionEngine.runEvents (s : ActionEngine) (es : List Event) : ActionEngine :=
  es.foldl (fun s e => (s.process_event e).2) s

/-! ## Well-formedness of the book state -/

/-- The sum of the chained orders' sizes. -/
def sumSizes (orders : List Order) : Nat := (orders.map Order.size).sum

/-- The chained orders' ids, in chain order. -/
def orderIds (orders : List Order) : List Nat := orders.map Order.order_id

/-- All order ids resting on one side, in visitation order. -/
def sideIds (ls : SideMap) : List Nat :=
  (ls.map (fun e => orderIds e.2.orders)).flatten

/-- The price keys of a side map. -/
def sideKeys (ls : SideMap) : List Int := ls.map Prod.fst

/-- The stored aggregates of a level agree with its chain. -/
def Level.wf (l : Level) : Prop :=
  l.total_size = sumSizes l.orders ∧ l.order_count = l.orders.length

/-- One side-map entry is consistent: the level is keyed by its own price,
its aggregates are accurate, it is non-empty, and every chained order carries
the level's price. -/
def sideEntryWF (e : Int × Level) : Prop :=
  e.2.price_raw = e.1 ∧ e.2.wf ∧ e.2.order_count ≠ 0 ∧
    ∀ o ∈ e.2.orders, o.price_raw = e.1

/-- A side map is consistent: distinct price keys, every entry consistent. -/
def sideWF (ls : SideMap) : Prop :=
  (sideKeys ls).Nodup ∧ ∀ e ∈ ls, sideEntryWF e

/-- Book well-formedness: both sides consistent and every resting order id
unique across the whole book (the `order_map_` key property). -/
def OrderBook.wf (b : OrderBook) : Prop :=
  sideWF b.bid_levels ∧ sideWF b.ask_levels ∧
    (sideIds b.bid_levels ++ sideIds b.ask_levels).Nodup

/-- The property asserted by the specification for every level of either side
map: stored `total_size` and `order_count` match the chain, and no empty
level is present. -/
def levelsAccurate (b : OrderBook) : Prop :=
  ∀ e, e ∈ b.bid_levels ∨ e ∈ b.ask_levels →
    e.2.total_size = sumSizes e.2.orders ∧
    e.2.order_count = e.2.orders.length ∧ e.2.order_count ≠ 0

/-! ## Side-map lemmas -/

theorem add_to_side_fst (o : Order) (lt : Int → Int → Bool) (ls : SideMap) :
    (add_to_side o lt ls).1 = true := by
  unfold add_to_side
  cases findLevel ls o.price_raw <;> simp

theorem findLevel_nil (p : Int) : findLevel ([] : SideMap) p = none := rfl

theorem findLevel_cons_self (p : Int) (l : Level) (ls : SideMap) :
    findLevel ((p, l) :: ls) p = some l := by
  simp [findLevel, List.find?_cons]

theorem findLevel_cons_ne (p q : Int) (l : Level) (ls : SideMap)
    (h : (p == q) = false) : findLevel ((p, l) :: ls) q = findLevel ls q := by
  simp [findLevel, List.find?_cons, h]

theorem findLevel_split {ls : SideMap} {p : Int} {l : Level}
    (h : findLevel ls p = some l) :
    ∃ ls₁ ls₂, ls = ls₁ ++ (p, l) :: ls₂ ∧ ∀ e ∈ ls₁, (e.1 == p) = false := by
  induction ls with
  | nil => simp [findLevel] at h
  | cons e rest ih =>
      by_cases hk : (e.1 == p) = true
      · have hp : e.1 = p := by simpa using hk
        have : e.2 = l := by
          simp [findLevel, List.find?_cons, hk] at h
          exact h
        exact ⟨[], rest, by simp [← hp, ← this], by simp⟩
      · have hk' : (e.1 == p) = false := by simpa using hk
        have h' : findLevel rest p = some l := by
          simpa [findLevel, List.find?_cons, hk'] using h
        obtain ⟨ls₁, ls₂, heq, hall⟩ := ih h'
        exact ⟨e :: ls₁, ls₂, by simp [heq], by
          intro x hx
          rcases List.mem_cons.1 hx with hx | hx
          · simpa [hx] using hk'
          · exact hall x hx⟩

theorem updateLevel_of_absent {ls : SideMap} {p : Int} {l' : Level}
    (h : ∀ e ∈ ls, (e.1 == p) = false) : updateLevel ls p l' = ls := by
  induction ls with
  | nil => rfl
  | cons e rest ih =>
      have he := h e (by simp)
      have hr : updateLevel rest p l' = rest :=
        ih fun x hx => h x (List.mem_cons_of_mem _ hx)
      simp only [updateLevel, List.map_cons] at hr ⊢
      rw [hr, if_neg (by simp [he])]

theorem updateLevel_append {ls₁ ls₂ : SideMap} {p : Int} {l l' : Level}
    (h₁ : ∀ e ∈ ls₁, (e.1 == p) = false) (h₂ : ∀ e ∈ ls₂, (e.1 == p) = false) :
    updateLevel (ls₁ ++ (p, l) :: ls₂) p l' = ls₁ ++ (p, l') :: ls₂ := by
  have e₁ : updateLevel ls₁ p l' = ls₁ := updateLevel_of_absent h₁
  have e₂ : updateLevel ls₂ p l' = ls₂ := updateLevel_of_absent h₂
  simp [updateLevel] at e₁ e₂ ⊢
  simp [e₁, e₂]

theorem eraseLevel_of_absent {ls : SideMap} {p : Int}
    (h : ∀ e ∈ ls, (e.1 == p) = false) : eraseLevel ls p = ls := by
  induction ls with
  | nil => rfl
  | cons e rest ih =>
      have he := h e (by simp)
      have hr : eraseLevel rest p = rest :=
        ih fun x hx => h x (List.mem_cons_of_mem _ hx)
      simp only [eraseLevel] at hr
      simp [eraseLevel, List.eraseP_cons, he, hr]

theorem eraseLevel_append {ls₁ ls₂ : SideMap} {p : Int} {l : Level}
    (h₁ : ∀ e ∈ ls₁, (e.1 == p) = false) :
    eraseLevel (ls₁ ++ (p, l) :: ls₂) p = ls₁ ++ ls₂ := by
  induction ls₁ with
  | nil => simp [eraseLevel, List.eraseP_cons]
  | cons e rest ih =>
      have he := h₁ e (by simp)
      have hr : eraseLevel (rest ++ (p, l) :: ls₂) p = rest ++ ls₂ :=
        ih fun x hx => h₁ x (List.mem_cons_of_mem _ hx)
      simp only [eraseLevel] at hr
      simp [eraseLevel, List.eraseP_cons, he, hr]

theorem findLevel_append_left {ls₁ ls₂ : SideMap} {q : Int}
    (h : ∀ e ∈ ls₁, (e.1 == q) = false) :
    findLevel (ls₁ ++ ls₂) q = findLevel ls₂ q := by
  induction ls₁ with
  | nil => rfl
  | cons e rest ih =>
      have he := h e (by simp)
      rw [List.cons_append, findLevel_cons_ne _ _ _ _ he]
      exact ih fun x hx => h x (by simp [hx])

theorem sideKeys_updateLevel (ls : SideMap) (p : Int) (l' : Level) :
    sideKeys (updateLevel ls p l') = sideKeys ls := by
  induction ls with
  | nil => rfl
  | cons e rest ih =>
      simp only [sideKeys, updateLevel, List.map_cons] at ih ⊢
      by_cases hk : e.1 = p
      · rw [if_pos (by simp [hk]), ih]
        simp [hk]
      · rw [if_neg (by simp [hk]), ih]

/-! ## Order-chain lemmas -/

theorem sumSizes_nil : sumSizes [] = 0 := rfl

theorem sumSizes_cons (o : Order) (os : List Order) :
    sumSizes (o :: os) = o.size + sumSizes os := by
  simp [sumSizes]

theorem sumSizes_append (u v : List Order) :
    sumSizes (u ++ v) = sumSizes u + sumSizes v := by
  simp [sumSizes]

theorem orderIds_cons (o : Order) (os : List Order) :
    orderIds (o :: os) = o.order_id :: orderIds os := rfl

theorem orderIds_append (u v : List Order) :
    orderIds (u ++ v) = orderIds u ++ orderIds v := by
  simp [orderIds]

theorem sideIds_cons (e : Int × Level) (ls : SideMap) :
    sideIds (e :: ls) = orderIds e.2.orders ++ sideIds ls := by
  simp [sideIds]

theorem sideIds_append (ls₁ ls₂ : SideMap) :
    sideIds (ls₁ ++ ls₂) = sideIds ls₁ ++ sideIds ls₂ := by
  simp [sideIds]

theorem mem_split_by_id {os : List Order} {o : Order}
    (hnd : (orderIds os).Nodup) (hm : o ∈ os) :
    ∃ u v, os = u ++ o :: v ∧ (∀ x ∈ u, (x.order_id == o.order_id) = false) ∧
      (∀ x ∈ v, (x.order_id == o.order_id) = false) := by
  obtain ⟨u, v, rfl⟩ := List.append_of_mem hm
  rw [orderIds, List.map_append, List.map_cons, List.nodup_middle,
    List.nodup_cons] at hnd
  refine ⟨u, v, rfl, ?_, ?_⟩
  · intro x hx
    have hmem : x.order_id ∈ u.map Order.order_id := List.mem_map_of_mem _ hx
    have hne : x.order_id ≠ o.order_id := by
      intro he
      exact hnd.1 (List.mem_append_left _ (he ▸ hmem))
    simpa using hne
  · intro x hx
    have hmem : x.order_id ∈ v.map Order.order_id := List.mem_map_of_mem _ hx
    have hne : x.order_id ≠ o.order_id := by
      intro he
      exact hnd.1 (List.mem_append_right _ (he ▸ hmem))
    simpa using hne

theorem setOrderSize_append {u v : List Order} {o : Order} {n : Nat}
    (hu : ∀ x ∈ u, (x.order_id == o.order_id) = false) :
    setOrderSize (u ++ o :: v) o.order_id n = u ++ { o with size := n } :: v := by
  induction u with
  | nil => simp [setOrderSize]
  | cons x rest ih =>
      have hx := hu x (List.mem_cons_self _ _)
      have hr := ih fun y hy => hu y (List.mem_cons_of_mem _ hy)
      simp only [List.cons_append, setOrderSize, hx]
      rw [if_neg (by simp [hx])] at *
      simp [hr]

theorem eraseP_id_append {u v : List Order} {o : Order}
    (hu : ∀ x ∈ u, (x.order_id == o.order_id) = false) :
    (u ++ o :: v).eraseP (fun x => x.order_id == o.order_id) = u ++ v := by
  induction u with
  | nil => simp [List.eraseP_cons]
  | cons x rest ih =>
      have hx := hu x (List.mem_cons_self _ _)
      have hr := ih fun y hy => hu y (List.mem_cons_of_mem _ hy)
      simp [List.eraseP_cons, hx, hr]

/-! ## The FIFO consumption walk -/

/-- Modelled from the spec: the head-first FIFO walk of a trade of quantity
`remaining` — each head order whose size is at most the remaining quantity is
fully removed, and the first larger one is decremented by the remainder. -/
def consumeFIFO (remaining : Nat) : List Order → List Order
  | [] => []
  | o :: rest =>
      if remaining = 0 then o :: rest
      else if o.size ≤ remaining then consumeFIFO (remaining - o.size) rest
      else { o with size := o.size - remaining } :: rest

theorem consumeFIFO_zero (os : List Order) : consumeFIFO 0 os = os := by
  cases os <;> simp [consumeFIFO]

theorem consumeFIFO_all {n : Nat} {os : List Order} (h : sumSizes os < n) :
    consumeFIFO n os = [] := by
  induction os generalizing n with
  | nil => simp [consumeFIFO]
  | cons o rest ih =>
      rw [sumSizes_cons] at h
      have h0 : ¬ n = 0 := by omega
      have h1 : o.size ≤ n := by omega
      simp only [consumeFIFO, h0, if_false, h1, if_true]
      exact ih (by omega)

theorem consumeFIFO_drop (n : Nat) (os : List Order) :
    ∃ k, orderIds (consumeFIFO n os) = (orderIds os).drop k ∧
      (consumeFIFO n os).map Order.price_raw = (os.map Order.price_raw).drop k := by
  induction os generalizing n with
  | nil => exact ⟨0, by simp [consumeFIFO]⟩
  | cons o rest ih =>
      by_cases h0 : n = 0
      · exact ⟨0, by simp [h0, consumeFIFO_zero]⟩
      · by_cases h1 : o.size ≤ n
        · obtain ⟨k, hk1, hk2⟩ := ih (n - o.size)
          refine ⟨k + 1, ?_, ?_⟩
          · simpa [consumeFIFO, h0, h1, orderIds] using hk1
          · simpa [consumeFIFO, h0, h1] using hk2
        · exact ⟨0, by simp [consumeFIFO, h0, h1, orderIds]⟩

/-! ## tradeLoop characterisation -/

theorem tradeLoop_zero (l : Level) : tradeLoop 0 l = l := by
  unfold tradeLoop
  cases hl : l.orders.length <;> simp [tradeLoopFuel]

theorem tradeLoop_nil {n : Nat} {l : Level} (hn : ¬ n = 0)
    (h : l.orders = []) : tradeLoop n l = l := by
  unfold tradeLoop
  rw [h]
  simp [tradeLoopFuel]

theorem tradeLoop_consume {n : Nat} {l : Level} {o : Order} {rest : List Order}
    (hn : ¬ n = 0) (h : l.orders = o :: rest) (hsz : o.size ≤ n) :
    tradeLoop n l = tradeLoop (n - o.size) (l.remove_order o) := by
  have hrm : (l.remove_order o).orders = rest := by
    simp [Level.remove_order, h, List.eraseP_cons]
  unfold tradeLoop
  rw [hrm, h, List.length_cons]
  simp only [tradeLoopFuel]
  rw [if_neg hn, h]
  dsimp only
  rw [if_pos hsz]

theorem tradeLoop_final {n : Nat} {l : Level} {o : Order} {rest : List Order}
    (hn : ¬ n = 0) (h : l.orders = o :: rest) (hsz : ¬ o.size ≤ n) :
    tradeLoop n l =
      { l.modify_order_size o.size (o.size - n) with
          orders := { o with size := o.size - n } :: rest } := by
  unfold tradeLoop
  rw [h, List.length_cons]
  simp only [tradeLoopFuel]
  rw [if_neg hn, h]
  dsimp only
  rw [if_neg hsz]

theorem tradeLoop_spec (n : Nat) (l : Level) :
    (tradeLoop n l).orders = consumeFIFO n l.orders ∧
    (tradeLoop n l).price_raw = l.price_raw ∧
    (l.wf → (tradeLoop n l).wf) := by
  suffices H : ∀ (os : List Order) (n : Nat) (l : Level), l.orders = os →
      (tradeLoop n l).orders = consumeFIFO n l.orders ∧
      (tradeLoop n l).price_raw = l.price_raw ∧
      (l.wf → (tradeLoop n l).wf) from H l.orders n l rfl
  intro os
  induction os with
  | nil =>
      intro n l hos
      by_cases hn : n = 0
      · subst hn
        simp [tradeLoop_zero, consumeFIFO_zero]
      · rw [tradeLoop_nil hn hos, hos]
        simp [consumeFIFO]
  | cons o rest ih =>
      intro n l hos
      by_cases hn : n = 0
      · subst hn
        simp [tradeLoop_zero, consumeFIFO_zero]
      · have hrm : (l.remove_order o).orders = rest := by
          simp [Level.remove_order, hos, List.eraseP_cons]
        by_cases hsz : o.size ≤ n
        · rw [tradeLoop_consume hn hos hsz]
          obtain ⟨ih1, ih2, ih3⟩ := ih (n - o.size) (l.remove_order o) hrm
          refine ⟨?_, ?_, ?_⟩
          · rw [ih1, hrm, hos]
            simp only [consumeFIFO]
            rw [if_neg hn, if_pos hsz]
          · rw [ih2]; rfl
          · intro hw
            apply ih3
            obtain ⟨ht, hc⟩ := hw
            rw [hos, sumSizes_cons] at ht
            rw [hos, List.length_cons] at hc
            refine ⟨?_, ?_⟩
            · show l.total_size - o.size = sumSizes (l.remove_order o).orders
              rw [hrm]
              omega
            · show l.order_count - 1 = (l.remove_order o).orders.length
              rw [hrm]
              omega
        · rw [tradeLoop_final hn hos hsz]
          refine ⟨?_, rfl, ?_⟩
          · rw [hos]
            simp only [consumeFIFO]
            rw [if_neg hn, if_neg hsz]
          · rintro ⟨ht, hc⟩
            rw [hos, sumSizes_cons] at ht
            rw [hos, List.length_cons] at hc
            refine ⟨?_, ?_⟩
            · show l.total_size - o.size + (o.size - n) = _
              rw [sumSizes_cons]
              show _ = o.size - n + sumSizes rest
              omega
            · show l.order_count = _
              rw [List.length_cons]
              omega

/-! ## Claim C2: the snapshot-worthy bit -/

/-- The specification's characterisation of the snapshot-worthy bit: true
only for `A`/`M`/`C`/`R`/`N` outcomes that succeeded, with `N` always true,
`R` true only for non-first clears, `C` true for successful plain cancels and
for trade completions whose replayed execution succeeded, and `T`/`F` (and
unknown actions) always false. -/
def snapshotWorthySpec (s : ActionEngine) (e : Event) : Bool :=
  match e.action with
  | 'A' => e.side != 'N' &&
      (s.book.add_order e.order_id e.price_raw e.size e.side e.timestamp_ns).1
  | 'M' => e.side != 'N' &&
      (s.book.modify_order e.order_id e.price_raw e.size).1
  | 'C' =>
      if s.trade_state == TradeState.FILL_RECEIVED then
        match s.pending_trade with
        | some p => (s.book.execute_trade p.price_raw p.size p.side).1
        | none => false
      else (s.book.cancel_order e.order_id).1
  | 'T' => false
  | 'F' => false
  | 'R' => s.first_clear_seen
  | 'N' => true
  | _ => false

/-- C2: for every engine state and event, the snapshot-worthy bit returned by
`process_event` is exactly the specification's characterisation: true only
for `A`/`M`/`C`/`R`/`N` handlings that succeeded (`N` always, `R` only for
non-first clears, `C` for successful plain cancels and for trade completions
whose replayed execution succeeded), and false for `T`, `F` and unknown
actions. -/
theorem c2_snapshot_worthy_bit (s : ActionEngine) (e : Event) :
    (s.process_event e).1 = snapshotWorthySpec s e := by
  unfold ActionEngine.process_event snapshotWorthySpec
  split
  · -- A
    by_cases hN : e.side = 'N'
    · simp [ActionEngine.handle_add, hN]
    · have hN' : (e.side == 'N') = false := by simpa using hN
      simp only [ActionEngine.handle_add, hN', Bool.false_eq_true, if_false]
      cases hr : (s.book.add_order e.order_id e.price_raw e.size e.side e.timestamp_ns).1 <;>
        simp [hr, hN', bne]
  · -- M
    by_cases hN : e.side = 'N'
    · simp [ActionEngine.handle_modify, hN]
    · have hN' : (e.side == 'N') = false := by simpa using hN
      simp only [ActionEngine.handle_modify, hN', Bool.false_eq_true, if_false]
      cases hr : (s.book.modify_order e.order_id e.price_raw e.size).1 <;>
        simp [hr, hN', bne]
  · -- C
    by_cases hst : s.trade_state = TradeState.FILL_RECEIVED
    · simp only [ActionEngine.handle_cancel, ActionEngine.complete_trade_sequence, hst]
      cases hp : s.pending_trade with
      | none => simp
      | some p =>
          cases hr : (s.book.execute_trade p.price_raw p.size p.side).1 <;>
            simp [hr]
    · simp only [ActionEngine.handle_cancel, ActionEngine.complete_trade_sequence]
      have hst' : (s.trade_state == TradeState.FILL_RECEIVED) = false := by
        simpa using hst
      simp only [hst', Bool.false_eq_true, if_false]
      cases hr : (s.book.cancel_order e.order_id).1 <;> simp [hr]
  · -- T
    simp [ActionEngine.handle_trade]
  · -- F
    dsimp only [ActionEngine.handle_fill]
    split
    · rfl
    · split <;> rfl
  · -- R
    cases hf : s.first_clear_seen <;> simp [ActionEngine.handle_clear, hf]
  · -- N
    rfl
  · -- unknown action
    rfl

/-! ## Claim C4: snapshot change detection -/

/-- The current top-10 snapshot fetched from the book and stamped with the
event timestamp, as built at the head of `should_generate_snapshot`. -/
def stampedTop10 (book : OrderBook) (ts : Nat) : MBPSnapshot :=
  { book.get_top10_snapshot with timestamp_ns := ts }

theorem differs_from_stamped (t : Nat) (a b : MBPSnapshot) :
    MBPSnapshot.differs_from { a with timestamp_ns := t } b
      = a.differs_from b := by
  simp [MBPSnapshot.differs_from]

theorem should_generate_fst (m : SnapshotManager) (book : OrderBook) (ts : Nat) :
    (m.should_generate_snapshot book ts).1
      = (!m.has_previous ||
          (book.get_top10_snapshot).differs_from m.previous_snapshot) := by
  simp only [SnapshotManager.should_generate_snapshot, differs_from_stamped]
  cases hp : m.has_previous <;>
    cases hd : (book.get_top10_snapshot).differs_from m.previous_snapshot <;>
      simp [hp, hd]

/-- C4: the snapshot emitter emits a line exactly when there is no previous
snapshot or one of the four top-10 arrays changed; the timestamp is excluded
from the comparison (the emission bit is the same for any two timestamps);
and the first invocation ever (fresh manager, previous-valid flag false)
always emits. -/
theorem c4_change_detection (m : SnapshotManager) (book : OrderBook)
    (ts ts2 : Nat) :
    ((m.should_generate_snapshot book ts).1
        = (!m.has_previous ||
            (stampedTop10 book ts).differs_from m.previous_snapshot))
    ∧ (m.should_generate_snapshot book ts).1
        = (m.should_generate_snapshot book ts2).1
    ∧ (m.has_previous = false → (m.should_generate_snapshot book ts).1 = true)
    ∧ (SnapshotManager.init.should_generate_snapshot book ts).1 = true := by
  refine ⟨?_, ?_, ?_, ?_⟩
  · rw [should_generate_fst]
    simp [stampedTop10, differs_from_stamped]
  · rw [should_generate_fst, should_generate_fst]
  · intro hp
    rw [should_generate_fst, hp]
    simp
  · rw [should_generate_fst]
    simp [SnapshotManager.init]

/-- Witness for C4 at a concrete input: a fresh manager emits on its first
invocation. -/
theorem c4_change_detection_witness :
    (SnapshotManager.init.should_generate_snapshot OrderBook.init 5).1 = true := by
  have h := c4_change_detection SnapshotManager.init OrderBook.init 5 7
  exact h.2.2.1 rfl

/-! ## Claim C1: trade replay on the completing cancel -/

/-- C1: a `C` event processed in `FILL_RECEIVED` with a buffered pending
trade replays exactly `execute_trade(pending.price, pending.size,
pending.side)`; the result does not depend on the `C` event's own id, price
or size (they do not occur on the right-hand side), and whether or not the
replay succeeds, the machine resets to `IDLE` and the pending record is
cleared. -/
theorem c1_cancel_replays_pending (s : ActionEngine) (e : Event) (p : TradeInfo)
    (hstate : s.trade_state = TradeState.FILL_RECEIVED)
    (hpend : s.pending_trade = some p)
    (hact : e.action = 'C') :
    s.process_event e =
      ((s.book.execute_trade p.price_raw p.size p.side).1,
       { s with
           book := (s.book.execute_trade p.price_raw p.size p.side).2
         , trade_state := .IDLE
         , pending_trade := none
         , actions_processed := s.actions_processed + 1
         , trades_aggregated := s.trades_aggregated +
             (if (s.book.execute_trade p.price_raw p.size p.side).1 then 1 else 0)
         , errors_encountered := s.errors_encountered +
             (if (s.book.execute_trade p.price_raw p.size p.side).1 then 0 else 1) }) := by
  simp only [ActionEngine.process_event, hact]
  simp only [ActionEngine.handle_cancel, ActionEngine.complete_trade_sequence,
    hstate, hpend]
  cases hr : (s.book.execute_trade p.price_raw p.size p.side).1 <;> simp [hr]

/-- Witness for C1 at a concrete engine state in `FILL_RECEIVED`. -/
theorem c1_cancel_replays_pending_witness :
    (ActionEngine.process_event
        ⟨OrderBook.init, .FILL_RECEIVED, some ⟨1, 5, 10100, 100, 'B', true⟩,
          5, 3, 0, 0, true⟩
        ⟨4, 9, 77, 33, 'C', 'N'⟩).2.trade_state = TradeState.IDLE := by
  have h := c1_cancel_replays_pending
    ⟨OrderBook.init, .FILL_RECEIVED, some ⟨1, 5, 10100, 100, 'B', true⟩,
      5, 3, 0, 0, true⟩
    ⟨4, 9, 77, 33, 'C', 'N'⟩ ⟨1, 5, 10100, 100, 'B', true⟩ rfl rfl rfl
  rw [h]

/-! ## Claim C7: fill-event error handling -/

/-- The `T` then matching `F` prefix used by the C7 counterexample. -/
def stateC7 : ActionEngine :=
  ActionEngine.init.runEvents
    [⟨1, 5, 10100, 100, 'T', 'B'⟩, ⟨2, 5, 10100, 100, 'F', 'B'⟩]

/-- C7 counterexample: after `T` and a matching `F` the engine is in
`FILL_RECEIVED`; a further `F` event then arrives with the engine not in
`TRADE_RECEIVED`, and contrary to the claim the engine does **not** reset to
`IDLE` and does **not** discard the pending trade — it only increments the
error counter. -/
theorem c7_counterexample :
    stateC7.trade_state = TradeState.FILL_RECEIVED ∧
    stateC7.pending_trade ≠ none ∧
    (stateC7.process_event ⟨3, 5, 10100, 100, 'F', 'B'⟩).2.trade_state
        = TradeState.FILL_RECEIVED ∧
    (stateC7.process_event ⟨3, 5, 10100, 100, 'F', 'B'⟩).2.pending_trade ≠ none ∧
    (stateC7.process_event ⟨3, 5, 10100, 100, 'F', 'B'⟩).2.errors_encountered
        = stateC7.errors_encountered + 1 := by
  decide

/-- C7 as amended: an `F` in `TRADE_RECEIVED` whose id mismatches the
pending trade id resets to `IDLE`, discards the pending record and increments
the error counter; an `F` in any other state only increments the error
counter, leaving the trade state and the pending record unchanged; an `F`
never mutates the book and is never snapshot-worthy. -/
theorem c7_fill_error_handling (s : ActionEngine) (e : Event)
    (hact : e.action = 'F') :
    ((s.process_event e).1 = false ∧ (s.process_event e).2.book = s.book)
    ∧ (s.trade_state ≠ TradeState.TRADE_RECEIVED →
        (s.process_event e).2 =
          { s with actions_processed := s.actions_processed + 1
                 , errors_encountered := s.errors_encountered + 1 })
    ∧ (s.trade_state = TradeState.TRADE_RECEIVED →
        ¬(s.pending_trade.isSome = true ∧ e.order_id = s.last_trade_id) →
        (s.process_event e).2 =
          { s with actions_processed := s.actions_processed + 1
                 , trade_state := .IDLE
                 , pending_trade := none
                 , errors_encountered := s.errors_encountered + 1 }) := by
  simp only [ActionEngine.process_event, hact]
  dsimp only [ActionEngine.handle_fill]
  refine ⟨?_, ?_, ?_⟩
  · split
    · exact ⟨rfl, rfl⟩
    · split <;> exact ⟨rfl, rfl⟩
  · intro hst
    rw [if_pos (by simpa using hst)]
  · intro hst hmis
    rw [if_neg (by simp [hst]), if_neg (by simpa using hmis)]

/-- Witness for the amended C7: a mismatching `F` in `TRADE_RECEIVED`. -/
theorem c7_fill_error_handling_witness :
    (ActionEngine.process_event
        ⟨OrderBook.init, .TRADE_RECEIVED, some ⟨1, 5, 10100, 100, 'B', false⟩,
          5, 1, 0, 0, false⟩
        ⟨2, 6, 10100, 100, 'F', 'B'⟩).2.trade_state = TradeState.IDLE := by
  have h := c7_fill_error_handling
    ⟨OrderBook.init, .TRADE_RECEIVED, some ⟨1, 5, 10100, 100, 'B', false⟩,
      5, 1, 0, 0, false⟩
    ⟨2, 6, 10100, 100, 'F', 'B'⟩ rfl
  rw [h.2.2 rfl (by decide)]

/-! ## Claim C8: clear-event semantics -/

/-- C8: the first `R` ever observed only latches the first-clear flag — no
book mutation and no snapshot — while every later `R` clears the book
(emptying both side maps and releasing every resting order), resets the
state machine to `IDLE` discarding any pending trade, and returns a
snapshot-worthy `true`. -/
theorem c8_clear_semantics (s : ActionEngine) (e : Event)
    (hact : e.action = 'R') :
    (s.first_clear_seen = false →
        s.process_event e =
          (false, { s with actions_processed := s.actions_processed + 1
                         , first_clear_seen := true }))
    ∧ (s.first_clear_seen = true →
        s.process_event e =
          (true, { s with actions_processed := s.actions_processed + 1
                        , book := s.book.clear
                        , trade_state := .IDLE
                        , pending_trade := none }))
    ∧ s.book.clear.bid_levels = [] ∧ s.book.clear.ask_levels = [] := by
  simp only [ActionEngine.process_event, hact]
  dsimp only [ActionEngine.handle_clear]
  refine ⟨?_, ?_, rfl, rfl⟩
  · intro hf
    rw [if_pos (by simp [hf])]
  · intro hf
    rw [if_neg (by simp [hf])]

/-- Witness for C8: both the first and a later `R`, at concrete states. -/
theorem c8_clear_semantics_witness :
    ActionEngine.init.process_event ⟨1, 0, 0, 0, 'R', 'N'⟩ =
      (false, { ActionEngine.init with actions_processed := 1
                                     , first_clear_seen := true }) := by
  have h := c8_clear_semantics ActionEngine.init ⟨1, 0, 0, 0, 'R', 'N'⟩ rfl
  exact h.1 rfl

/-! ## Claim C9: input-data error accounting -/

/-- C9 counterexample: an `A` event with side `N` is dropped with the book
unchanged, but — contrary to the claim — the error counter is **not**
incremented (the `side == 'N'` early return precedes the error accounting). -/
theorem c9_counterexample :
    (ActionEngine.init.process_event ⟨1, 7, 100, 10, 'A', 'N'⟩).2.errors_encountered
        = ActionEngine.init.errors_encountered ∧
    (ActionEngine.init.process_event ⟨1, 7, 100, 10, 'A', 'N'⟩).2.book
        = ActionEngine.init.book ∧
    (ActionEngine.init.process_event ⟨1, 7, 100, 10, 'A', 'N'⟩).1 = false := by
  decide

/-- C9 as amended: every listed input-data error drops the event leaving the
book unchanged, returns false, and lets the stream continue; all of them
increment the aggregate error counter **except** an invalid side (`N`) on an
`A` or `M` event, which is dropped silently without touching the counter. -/
theorem c9_error_accounting (s : ActionEngine) (e : Event) :
    ((e.action ≠ 'A' ∧ e.action ≠ 'M' ∧ e.action ≠ 'C' ∧ e.action ≠ 'T' ∧
      e.action ≠ 'F' ∧ e.action ≠ 'R' ∧ e.action ≠ 'N') →
        (s.process_event e).2.errors_encountered = s.errors_encountered + 1 ∧
        (s.process_event e).2.book = s.book ∧ (s.process_event e).1 = false)
    ∧ ((e.action = 'A' ∨ e.action = 'M') → e.side = 'N' →
        (s.process_event e).2 =
          { s with actions_processed := s.actions_processed + 1 } ∧
        (s.process_event e).1 = false)
    ∧ (e.action = 'A' → e.side ≠ 'N' → (s.book.findOrder e.order_id).isSome →
        (s.process_event e).2.errors_encountered = s.errors_encountered + 1 ∧
        (s.process_event e).2.book = s.book ∧ (s.process_event e).1 = false)
    ∧ (e.action = 'M' → e.side ≠ 'N' → s.book.findOrder e.order_id = none →
        (s.process_event e).2.errors_encountered = s.errors_encountered + 1 ∧
        (s.process_event e).2.book = s.book ∧ (s.process_event e).1 = false)
    ∧ (e.action = 'C' → s.trade_state ≠ TradeState.FILL_RECEIVED →
        s.book.findOrder e.order_id = none →
        (s.process_event e).2.errors_encountered = s.errors_encountered + 1 ∧
        (s.process_event e).2.book = s.book ∧ (s.process_event e).1 = false)
    ∧ (e.action = 'F' → s.trade_state ≠ TradeState.TRADE_RECEIVED →
        (s.process_event e).2.errors_encountered = s.errors_encountered + 1 ∧
        (s.process_event e).2.book = s.book ∧ (s.process_event e).1 = false)
    ∧ (e.action = 'F' → s.trade_state = TradeState.TRADE_RECEIVED →
        ¬(s.pending_trade.isSome = true ∧ e.order_id = s.last_trade_id) →
        (s.process_event e).2.errors_encountered = s.errors_encountered + 1 ∧
        (s.process_event e).2.book = s.book ∧ (s.process_event e).1 = false) := by
  refine ⟨?_, ?_, ?_, ?_, ?_, ?_, ?_⟩
  · rintro ⟨h1, h2, h3, h4, h5, h6, h7⟩
    unfold ActionEngine.process_event
    split <;> simp_all
  · rintro (ha | ha) hN <;>
      · simp only [ActionEngine.process_event, ha]
        dsimp only [ActionEngine.handle_add, ActionEngine.handle_modify]
        rw [if_pos (by simp [hN])]
        exact ⟨rfl, rfl⟩
  · intro ha hN hdup
    simp only [ActionEngine.process_event, ha]
    dsimp only [ActionEngine.handle_add]
    rw [if_neg (by simpa using hN)]
    dsimp only [OrderBook.add_order]
    rw [if_pos hdup]
    exact ⟨rfl, rfl, rfl⟩
  · intro ha hN hnone
    simp only [ActionEngine.process_event, ha]
    dsimp only [ActionEngine.handle_modify]
    rw [if_neg (by simpa using hN)]
    simp only [OrderBook.modify_order, hnone]
    exact ⟨rfl, rfl, rfl⟩
  · intro ha hst hnone
    simp only [ActionEngine.process_event, ha]
    dsimp only [ActionEngine.handle_cancel]
    rw [if_neg (by simpa using hst)]
    simp only [OrderBook.cancel_order, hnone]
    exact ⟨rfl, rfl, rfl⟩
  · intro ha hst
    simp only [ActionEngine.process_event, ha]
    dsimp only [ActionEngine.handle_fill]
    rw [if_pos (by simpa using hst)]
    exact ⟨rfl, rfl, rfl⟩
  · intro ha hst hmis
    simp only [ActionEngine.process_event, ha]
    dsimp only [ActionEngine.handle_fill]
    rw [if_neg (by simp [hst]), if_neg (by simpa using hmis)]
    exact ⟨rfl, rfl, rfl⟩

/-- Witness for the amended C9: an unknown action character is counted and
dropped. -/
theorem c9_error_accounting_witness :
    (ActionEngine.init.process_event ⟨1, 7, 100, 10, 'X', 'B'⟩).2.errors_encountered
        = ActionEngine.init.errors_encountered + 1 := by
  have h := c9_error_accounting ActionEngine.init ⟨1, 7, 100, 10, 'X', 'B'⟩
  exact (h.1 (by decide)).1

/-! ## Claim C10: non-'B' aggressor sides consume the bid side -/

/-- C10: `execute_trade` with any aggressor side other than `'B'` (including
the `'N'` side a `T` event may carry, which `handle_trade` buffers into the
pending trade unchecked) treats the bid side as passive and consumes bid
liquidity, leaving the ask side untouched; only the aggressor side exactly
`'B'` consumes from the ask side. -/
theorem c10_passive_side_selection (b : OrderBook) (p : Int) (sz : Nat)
    (c : Char) (s : ActionEngine) (e : Event) :
    (c ≠ 'B' →
      b.execute_trade p sz c =
        ((execute_trade_on_side p sz b.bid_levels).1,
         { b with bid_levels := (execute_trade_on_side p sz b.bid_levels).2 }))
    ∧ (b.execute_trade p sz 'B' =
        ((execute_trade_on_side p sz b.ask_levels).1,
         { b with ask_levels := (execute_trade_on_side p sz b.ask_levels).2 }))
    ∧ (e.action = 'T' →
        (s.process_event e).2.pending_trade =
          some ⟨e.timestamp_ns, e.order_id, e.price_raw, e.size, e.side, false⟩ ∧
        (s.process_event e).2.trade_state = TradeState.TRADE_RECEIVED) := by
  refine ⟨?_, ?_, ?_⟩
  · intro hc
    have hc' : (c == 'B') = false := by simpa using hc
    simp [OrderBook.execute_trade, hc']
  · dsimp only [OrderBook.execute_trade]
    rw [show ((if (('B' : Char) == 'B') = true then 'A' else 'B') == 'B')
          = false from by decide]
    simp
  · intro ha
    simp only [ActionEngine.process_event, ha]
    dsimp only [ActionEngine.handle_trade]
    exact ⟨rfl, rfl⟩

/-- Witness for C10: the `'N'` side consumes the single resting bid. -/
theorem c10_passive_side_selection_witness :
    ((OrderBook.init.add_order 1 100 10 'B' 1).2.execute_trade 100 10 'N').2.bid_levels
        = [] := by
  have h := c10_passive_side_selection (OrderBook.init.add_order 1 100 10 'B' 1).2
    100 10 'N' ActionEngine.init ⟨1, 0, 0, 0, 'T', 'N'⟩
  rw [h.1 (by decide)]
  decide

/-! ## Claim C3: execute_trade semantics -/

theorem findLevel_of_absent {ls : SideMap} {p : Int}
    (h : ∀ e ∈ ls, (e.1 == p) = false) : findLevel ls p = none := by
  have hn : ls.find? (fun e => e.1 == p) = none :=
    List.find?_eq_none.2 fun e he => by simp [h e he]
  simp [findLevel, hn]

theorem findLevel_middle_ne {ls₁ ls₂ : SideMap} {p q : Int} {l l' : Level}
    (hq : q ≠ p) :
    findLevel (ls₁ ++ (p, l') :: ls₂) q = findLevel (ls₁ ++ (p, l) :: ls₂) q := by
  induction ls₁ with
  | nil =>
      rw [List.nil_append, List.nil_append,
        findLevel_cons_ne _ _ _ _ (by simpa using fun h => hq h.symm),
        findLevel_cons_ne _ _ _ _ (by simpa using fun h => hq h.symm)]
  | cons e rest ih =>
      by_cases hk : e.1 = q
      · simp only [List.cons_append, findLevel, List.find?_cons,
          show (e.1 == q) = true by simpa using hk]
      · rw [List.cons_append, List.cons_append,
          findLevel_cons_ne _ _ _ _ (by simpa using hk),
          findLevel_cons_ne _ _ _ _ (by simpa using hk)]
        exact ih

theorem findLevel_erase_middle_ne {ls₁ ls₂ : SideMap} {p q : Int} {l : Level}
    (hq : q ≠ p) :
    findLevel (ls₁ ++ ls₂) q = findLevel (ls₁ ++ (p, l) :: ls₂) q := by
  induction ls₁ with
  | nil =>
      rw [List.nil_append, List.nil_append,
        findLevel_cons_ne _ _ _ _ (by simpa using fun h => hq h.symm)]
  | cons e rest ih =>
      by_cases hk : e.1 = q
      · simp only [List.cons_append, findLevel, List.find?_cons,
          show (e.1 == q) = true by simpa using hk]
      · rw [List.cons_append, List.cons_append,
          findLevel_cons_ne _ _ _ _ (by simpa using hk),
          findLevel_cons_ne _ _ _ _ (by simpa using hk)]
        exact ih

theorem findLevel_middle_self {ls₁ ls₂ : SideMap} {p : Int} {l' : Level}
    (h₁ : ∀ e ∈ ls₁, (e.1 == p) = false) :
    findLevel (ls₁ ++ (p, l') :: ls₂) p = some l' := by
  rw [findLevel_append_left h₁, findLevel_cons_self]

theorem sideKeys_middle_absent {ls₁ ls₂ : SideMap} {p : Int} {l : Level}
    (hnd : (sideKeys (ls₁ ++ (p, l) :: ls₂)).Nodup) :
    ∀ e ∈ ls₂, (e.1 == p) = false := by
  intro e he
  have : p ∉ ls₂.map Prod.fst := by
    simp only [sideKeys, List.map_append, List.map_cons] at hnd
    have := List.Nodup.not_mem (List.Nodup.of_append_right hnd)
    simpa using this
  have : e.1 ≠ p := fun hk => this (hk ▸ List.mem_map_of_mem _ he)
  simpa using this

/-- The success flag, locality and level rewriting of
`execute_trade_on_side`. -/
theorem execute_trade_on_side_spec (p : Int) (sz : Nat) (ls : SideMap) :
    ((execute_trade_on_side p sz ls).1 = false ↔ findLevel ls p = none)
    ∧ ((execute_trade_on_side p sz ls).1 = false →
        (execute_trade_on_side p sz ls).2 = ls)
    ∧ (∀ l, findLevel ls p = some l → (sideKeys ls).Nodup →
        (execute_trade_on_side p sz ls).1 = true
        ∧ (∀ q, q ≠ p →
            findLevel (execute_trade_on_side p sz ls).2 q = findLevel ls q)
        ∧ findLevel (execute_trade_on_side p sz ls).2 p
            = (if (tradeLoop sz l).empty = true then none
               else some (tradeLoop sz l))
        ∧ (l.wf → sumSizes l.orders < sz →
            findLevel (execute_trade_on_side p sz ls).2 p = none)) := by
  cases hf : findLevel ls p with
  | none =>
      refine ⟨by simp [execute_trade_on_side, hf], ?_, ?_⟩
      · intro _
        simp [execute_trade_on_side, hf]
      · intro l hl
        exact absurd hl (by simp)
  | some l0 =>
      obtain ⟨ls₁, ls₂, rfl, h₁⟩ := findLevel_split hf
      refine ⟨by simp [execute_trade_on_side, hf, apply_ite], ?_, ?_⟩
      · intro hfalse
        simp only [execute_trade_on_side, hf] at hfalse
        cases hemp : (tradeLoop sz l0).empty <;> simp [hemp] at hfalse
      · intro l hl hnd
        have hid : l0 = l := by injection hl
        subst hid
        have h₂ := sideKeys_middle_absent hnd
        have hemp_rw :
            (execute_trade_on_side p sz (ls₁ ++ (p, l0) :: ls₂)).2
              = if (tradeLoop sz l0).empty = true then ls₁ ++ ls₂
                else ls₁ ++ (p, tradeLoop sz l0) :: ls₂ := by
          simp only [execute_trade_on_side, hf]
          cases hemp : (tradeLoop sz l0).empty
          · simp only [hemp, Bool.false_eq_true, if_false]
            rw [updateLevel_append h₁ h₂]
          · simp only [hemp, if_true]
            rw [eraseLevel_append h₁]
        refine ⟨?_, ?_, ?_, ?_⟩
        · simp only [execute_trade_on_side, hf]
          cases hemp : (tradeLoop sz l0).empty <;> simp [hemp]
        · intro q hq
          rw [hemp_rw]
          cases hemp : (tradeLoop sz l0).empty
          · simp only [hemp, Bool.false_eq_true, if_false]
            exact findLevel_middle_ne hq
          · simp only [hemp, if_true]
            exact findLevel_erase_middle_ne hq
        · rw [hemp_rw]
          cases hemp : (tradeLoop sz l0).empty
          · simp only [hemp, Bool.false_eq_true, if_false]
            exact findLevel_middle_self h₁
          · simp only [hemp, if_true]
            rw [findLevel_append_left h₁]
            exact findLevel_of_absent h₂
        · intro hw hlt
          have hnil : consumeFIFO sz l0.orders = [] := consumeFIFO_all hlt
          obtain ⟨hor, _, hwf⟩ := tradeLoop_spec sz l0
          have hcnt : (tradeLoop sz l0).order_count = 0 := by
            have := (hwf hw).2
            rw [this, hor, hnil]
            rfl
          have hemp : (tradeLoop sz l0).empty = true := by
            simp [Level.empty, hcnt]
          rw [hemp_rw, hemp, if_pos rfl, findLevel_append_left h₁]
          exact findLevel_of_absent h₂

/-- The passive side selected by `execute_trade` for a given aggressor
side. -/
def passiveLevels (b : OrderBook) (side : Char) : SideMap :=
  if side == 'B' then b.ask_levels else b.bid_levels

/-- C3: `execute_trade(p, s, side)` consumes liquidity from the passive side
(asks when the aggressor is `B`, bids otherwise) at exactly price `p`,
walking the level's FIFO head-first (`consumeFIFO`): each head order of size
at most the remaining quantity is fully removed and the first larger one is
decremented by the remainder; it returns false with the book unchanged
exactly when no level exists at `p` on the passive side; it returns true
even when the passive depth is smaller than `s`, and in that case the level
is fully consumed and deleted.  Levels at other prices and the aggressor
side maps are untouched. -/
theorem c3_execute_trade_semantics (b : OrderBook) (p : Int) (sz : Nat)
    (side : Char) :
    ((b.execute_trade p sz side).1 = false ↔
        findLevel (passiveLevels b side) p = none)
    ∧ ((b.execute_trade p sz side).1 = false → (b.execute_trade p sz side).2 = b)
    ∧ (if side == 'B' then (b.execute_trade p sz side).2.bid_levels = b.bid_levels
       else (b.execute_trade p sz side).2.ask_levels = b.ask_levels)
    ∧ (∀ l, findLevel (passiveLevels b side) p = some l →
        (sideKeys (passiveLevels b side)).Nodup →
        (b.execute_trade p sz side).1 = true
        ∧ (tradeLoop sz l).orders = consumeFIFO sz l.orders
        ∧ (∀ q, q ≠ p →
            findLevel (passiveLevels (b.execute_trade p sz side).2 side) q
              = findLevel (passiveLevels b side) q)
        ∧ findLevel (passiveLevels (b.execute_trade p sz side).2 side) p
            = (if (tradeLoop sz l).empty = true then none
               else some (tradeLoop sz l))
        ∧ (l.wf → sumSizes l.orders < sz →
            findLevel (passiveLevels (b.execute_trade p sz side).2 side) p
              = none)) := by
  obtain ⟨e1, e2, e3⟩ :=
    execute_trade_on_side_spec p sz (passiveLevels b side)
  cases hb : side == 'B'
  · have hx : b.execute_trade p sz side =
        ((execute_trade_on_side p sz b.bid_levels).1,
         { b with bid_levels := (execute_trade_on_side p sz b.bid_levels).2 }) := by
      simp [OrderBook.execute_trade, hb]
    have hpl : passiveLevels b side = b.bid_levels := by
      simp [passiveLevels, hb]
    have hafter :
        passiveLevels (b.execute_trade p sz side).2 side
          = (execute_trade_on_side p sz b.bid_levels).2 := by
      rw [hx]
      simp [passiveLevels, hb]
    rw [hpl] at e1 e2 e3
    refine ⟨by rw [hx, hpl]; exact e1, ?_, ?_, ?_⟩
    · intro hfalse
      rw [hx] at hfalse ⊢
      have h2 := e2 hfalse
      rw [h2]
    · simp [hx, hb]
    · intro l hl hnd
      rw [hpl] at hl hnd
      obtain ⟨g1, g2, g3, g4⟩ := e3 l hl hnd
      refine ⟨by rw [hx]; exact g1, (tradeLoop_spec sz l).1, ?_, ?_, ?_⟩
      · intro q hq
        rw [hafter, hpl]
        exact g2 q hq
      · rw [hafter]; exact g3
      · intro hw hlt
        rw [hafter]; exact g4 hw hlt
  · have hx : b.execute_trade p sz side =
        ((execute_trade_on_side p sz b.ask_levels).1,
         { b with ask_levels := (execute_trade_on_side p sz b.ask_levels).2 }) := by
      have hAB : (('A' : Char) == 'B') = false := by decide
      simp [OrderBook.execute_trade, hb, hAB]
    have hpl : passiveLevels b side = b.ask_levels := by
      simp [passiveLevels, hb]
    have hafter :
        passiveLevels (b.execute_trade p sz side).2 side
          = (execute_trade_on_side p sz b.ask_levels).2 := by
      rw [hx]
      simp [passiveLevels, hb]
    rw [hpl] at e1 e2 e3
    refine ⟨by rw [hx, hpl]; exact e1, ?_, ?_, ?_⟩
    · intro hfalse
      rw [hx] at hfalse ⊢
      have h2 := e2 hfalse
      rw [h2]
    · simp [hx, hb]
    · intro l hl hnd
      rw [hpl] at hl hnd
      obtain ⟨g1, g2, g3, g4⟩ := e3 l hl hnd
      refine ⟨by rw [hx]; exact g1, (tradeLoop_spec sz l).1, ?_, ?_, ?_⟩
      · intro q hq
        rw [hafter, hpl]
        exact g2 q hq
      · rw [hafter]; exact g3
      · intro hw hlt
        rw [hafter]; exact g4 hw hlt

/-- Witness for C3 on a book with one resting ask of size 10 at price 100:
a `B`-aggressor trade of size 4 succeeds. -/
theorem c3_execute_trade_semantics_witness :
    ((OrderBook.init.add_order 1 100 10 'A' 1).2.execute_trade 100 4 'B').1
      = true := by
  have h := c3_execute_trade_semantics
    (OrderBook.init.add_order 1 100 10 'A' 1).2 100 4 'B'
  exact (h.2.2.2 ⟨100, 10, 1, [⟨1, 100, 10, 10, 1⟩]⟩ (by decide) (by decide)).1

/-! ## Locating resting orders under well-formedness -/

theorem findLevel_none_key {ls : SideMap} {p : Int}
    (h : findLevel ls p = none) : ∀ e ∈ ls, (e.1 == p) = false := by
  intro e he
  by_contra hk
  have hk' : (e.1 == p) = true := by
    cases hx : e.1 == p
    · exact absurd hx hk
    · rfl
  have : ∃ x ∈ ls, (fun e => e.1 == p) x = true := ⟨e, he, hk'⟩
  rcases List.find?_isSome.2 this with hsome
  rw [findLevel] at h
  cases hfind : ls.find? (fun e => e.1 == p) with
  | none => rw [hfind] at hsome; cases hsome
  | some v => rw [hfind] at h; cases h

theorem findLevel_of_mem {ls : SideMap} (hnd : (sideKeys ls).Nodup)
    {e : Int × Level} (he : e ∈ ls) : findLevel ls e.1 = some e.2 := by
  induction ls with
  | nil => cases he
  | cons x rest ih =>
      rcases List.mem_cons.1 he with rfl | hr
      · exact findLevel_cons_self _ _ _
      · have hx : x.1 ≠ e.1 := by
          intro hk
          have : e.1 ∈ rest.map Prod.fst := List.mem_map_of_mem _ hr
          have hnm := (List.nodup_cons.1 hnd).1
          exact hnm (hk ▸ this)
        rw [findLevel_cons_ne _ _ _ _ (by simpa using hx)]
        exact ih (List.nodup_cons.1 hnd).2 hr

theorem mem_sideIds {ls : SideMap} {oid : Nat} :
    oid ∈ sideIds ls ↔ ∃ e ∈ ls, ∃ x ∈ e.2.orders, x.order_id = oid := by
  simp only [sideIds, orderIds, List.mem_flatten, List.mem_map]
  constructor
  · rintro ⟨ids, ⟨e, he, rfl⟩, hin⟩
    rcases List.mem_map.1 hin with ⟨x, hx, hxe⟩
    exact ⟨e, he, x, hx, hxe⟩
  · rintro ⟨e, he, x, hx, hxe⟩
    exact ⟨e.2.orders.map Order.order_id, ⟨e, he, rfl⟩,
      List.mem_map.2 ⟨x, hx, hxe⟩⟩

theorem findOrderInSide_some {ls : SideMap} {oid : Nat} {o : Order}
    (h : findOrderInSide ls oid = some o) :
    o.order_id = oid ∧ ∃ e ∈ ls, o ∈ e.2.orders := by
  induction ls with
  | nil => cases h
  | cons e rest ih =>
      rw [findOrderInSide, List.findSome?_cons] at h
      cases hfe : e.2.orders.find? (fun x => x.order_id == oid) with
      | some o2 =>
          rw [hfe] at h
          injection h with h
          subst h
          refine ⟨by simpa using List.find?_some hfe, e, by simp,
            List.mem_of_find?_eq_some hfe⟩
      | none =>
          rw [hfe] at h
          obtain ⟨h1, e2, he2, h3⟩ := ih h
          exact ⟨h1, e2, List.mem_cons_of_mem _ he2, h3⟩

theorem findOrderInSide_none {ls : SideMap} {oid : Nat}
    (h : findOrderInSide ls oid = none) :
    ∀ e ∈ ls, ∀ x ∈ e.2.orders, (x.order_id == oid) = false := by
  induction ls with
  | nil => intro e he; cases he
  | cons e rest ih =>
      rw [findOrderInSide, List.findSome?_cons] at h
      cases hfe : e.2.orders.find? (fun x => x.order_id == oid) with
      | some o2 => rw [hfe] at h; cases h
      | none =>
          rw [hfe] at h
          intro e2 he2 x hx
          rcases List.mem_cons.1 he2 with rfl | hr
          · have := List.find?_eq_none.1 hfe x hx
            simpa using this
          · exact ih h e2 hr x hx

theorem findOrderInSide_none_iff {ls : SideMap} {oid : Nat} :
    findOrderInSide ls oid = none ↔ oid ∉ sideIds ls := by
  constructor
  · intro h hmem
    obtain ⟨e, he, x, hx, hxe⟩ := mem_sideIds.1 hmem
    have := findOrderInSide_none h e he x hx
    simp [hxe] at this
  · intro h
    cases hf : findOrderInSide ls oid with
    | none => rfl
    | some o =>
        obtain ⟨h1, e, he, hmem⟩ := findOrderInSide_some hf
        exact absurd (mem_sideIds.2 ⟨e, he, o, hmem, h1⟩) h

/-- Where a found order rests, and what `determine_side` answers, on a
well-formed book. -/
theorem findOrder_located {b : OrderBook} {oid : Nat} {o : Order}
    (hwf : b.wf) (h : b.findOrder oid = some o) :
    o.order_id = oid ∧
    ((∃ l, findLevel b.bid_levels o.price_raw = some l ∧ o ∈ l.orders ∧
        b.determine_side o = 'B') ∨
     (∃ l, findLevel b.ask_levels o.price_raw = some l ∧ o ∈ l.orders ∧
        b.determine_side o = 'A')) := by
  obtain ⟨hbid, hask, _⟩ := hwf
  rw [OrderBook.findOrder] at h
  cases hb : findOrderInSide b.bid_levels oid with
  | some o2 =>
      rw [hb] at h
      simp only [Option.orElse] at h
      injection h with h
      subst o2
      obtain ⟨h1, e, he, hmem⟩ := findOrderInSide_some hb
      have hpx : o.price_raw = e.1 := (hbid.2 e he).2.2.2 o hmem
      have hfl : findLevel b.bid_levels o.price_raw = some e.2 := by
        rw [hpx]
        exact findLevel_of_mem hbid.1 he
      refine ⟨h1, Or.inl ⟨e.2, hfl, hmem, ?_⟩⟩
      rw [OrderBook.determine_side, hfl]
      dsimp only
      rw [if_pos (List.any_eq_true.2 ⟨o, hmem, by simp⟩)]
  | none =>
      rw [hb] at h
      simp only [Option.orElse] at h
      obtain ⟨h1, e, he, hmem⟩ := findOrderInSide_some h
      have hpx : o.price_raw = e.1 := (hask.2 e he).2.2.2 o hmem
      have hfl : findLevel b.ask_levels o.price_raw = some e.2 := by
        rw [hpx]
        exact findLevel_of_mem hask.1 he
      refine ⟨h1, Or.inr ⟨e.2, hfl, hmem, ?_⟩⟩
      rw [OrderBook.determine_side]
      cases hbl : findLevel b.bid_levels o.price_raw with
      | none => rfl
      | some lb =>
          have hnotin :
              (lb.orders.any fun x => x.order_id == o.order_id) = false := by
            cases hany : lb.orders.any fun x => x.order_id == o.order_id
            · rfl
            · obtain ⟨x, hx, hxid⟩ := List.any_eq_true.1 hany
              have hxf : (x.order_id == oid) = false := by
                refine findOrderInSide_none hb (o.price_raw, lb) ?_ x hx
                obtain ⟨ls₁, ls₂, hdec, h₁⟩ := findLevel_split hbl
                rw [hdec]
                exact List.mem_append_right _ (List.mem_cons_self _ _)
              rw [h1] at hxid
              rw [hxf] at hxid
              cases hxid
          dsimp only
          rw [hnotin]
          simp

/-! ## Effect of the side-map mutators on keys and resting ids -/

theorem perm_pull_middle {α : Type} (A B C : List α) (x : α) :
    List.Perm (A ++ (B ++ [x]) ++ C) (x :: (A ++ B ++ C)) := by
  have h : A ++ (B ++ [x]) ++ C = (A ++ B) ++ x :: C := by simp
  rw [h]
  have := @List.perm_middle _ x (A ++ B) C
  simpa using this

theorem insertLevelSorted_keys (lt : Int → Int → Bool) (q : Int) (lv : Level)
    (ls : SideMap) :
    List.Perm (sideKeys (insertLevelSorted lt q lv ls)) (q :: sideKeys ls) := by
  induction ls with
  | nil => simp [insertLevelSorted, sideKeys]
  | cons e rest ih =>
      simp only [insertLevelSorted]
      by_cases hlt : lt q e.1 = true
      · rw [if_pos hlt]
        exact List.Perm.refl _
      · rw [if_neg hlt]
        have h1 : List.Perm (sideKeys (e :: insertLevelSorted lt q lv rest))
            (e.1 :: q :: sideKeys rest) := ih.cons e.1
        exact h1.trans (List.Perm.swap q e.1 _)

theorem insertLevelSorted_ids (lt : Int → Int → Bool) (q : Int) (lv : Level)
    (ls : SideMap) :
    List.Perm (sideIds (insertLevelSorted lt q lv ls))
      (orderIds lv.orders ++ sideIds ls) := by
  induction ls with
  | nil => simp [insertLevelSorted, sideIds]
  | cons e rest ih =>
      simp only [insertLevelSorted]
      by_cases hlt : lt q e.1 = true
      · rw [if_pos hlt]
        exact List.Perm.refl _
      · rw [if_neg hlt]
        have h1 : List.Perm (sideIds (e :: insertLevelSorted lt q lv rest))
            (orderIds e.2.orders ++ (orderIds lv.orders ++ sideIds rest)) := by
          rw [sideIds_cons]
          exact ih.append_left _
        refine h1.trans ?_
        rw [sideIds_cons]
        have h2 : List.Perm
            ((orderIds e.2.orders ++ orderIds lv.orders) ++ sideIds rest)
            ((orderIds lv.orders ++ orderIds e.2.orders) ++ sideIds rest) :=
          (@List.perm_append_comm _ (orderIds e.2.orders)
            (orderIds lv.orders)).append_right _
        simpa [List.append_assoc] using h2

theorem insertLevelSorted_mem {lt : Int → Int → Bool} {q : Int} {lv : Level}
    {ls : SideMap} {e : Int × Level}
    (h : e ∈ insertLevelSorted lt q lv ls) : e = (q, lv) ∨ e ∈ ls := by
  induction ls with
  | nil => simpa [insertLevelSorted] using h
  | cons x rest ih =>
      simp only [insertLevelSorted] at h
      by_cases hlt : lt q x.1 = true
      · rw [if_pos hlt] at h
        rcases List.mem_cons.1 h with rfl | h2
        · exact Or.inl rfl
        · exact Or.inr h2
      · rw [if_neg hlt] at h
        rcases List.mem_cons.1 h with rfl | h2
        · exact Or.inr (List.mem_cons_self _ _)
        · rcases ih h2 with h3 | h3
          · exact Or.inl h3
          · exact Or.inr (List.mem_cons_of_mem _ h3)

/-- `add_to_side` on a well-formed side map keeps it well-formed and appends
exactly the new order's id. -/
theorem add_to_side_spec (o : Order) (lt : Int → Int → Bool) {ls : SideMap}
    (hwf : sideWF ls) :
    sideWF (add_to_side o lt ls).2 ∧
    List.Perm (sideIds (add_to_side o lt ls).2) (o.order_id :: sideIds ls) := by
  unfold add_to_side
  cases hf : findLevel ls o.price_raw with
  | none =>
      have hkey := findLevel_none_key hf
      dsimp only
      refine ⟨⟨?_, ?_⟩, ?_⟩
      · have hperm := insertLevelSorted_keys lt o.price_raw
          ((Level.emptyAt o.price_raw).add_order o) ls
        refine hperm.symm.nodup ?_
        rw [List.nodup_cons]
        refine ⟨?_, hwf.1⟩
        intro hq
        obtain ⟨e, he, hk⟩ := List.mem_map.1 hq
        have := hkey e he
        simp [hk] at this
      · intro e he
        rcases insertLevelSorted_mem he with rfl | he2
        · refine ⟨rfl, ⟨?_, ?_⟩, ?_, ?_⟩
          · simp [Level.emptyAt, Level.add_order, sumSizes]
          · simp [Level.emptyAt, Level.add_order]
          · simp [Level.emptyAt, Level.add_order]
          · intro x hx
            simp [Level.emptyAt, Level.add_order] at hx
            simp [hx]
        · exact hwf.2 e he2
      · have hperm := insertLevelSorted_ids lt o.price_raw
          ((Level.emptyAt o.price_raw).add_order o) ls
        simpa [Level.emptyAt, Level.add_order, orderIds] using hperm
  | some l =>
      obtain ⟨ls₁, ls₂, rfl, h₁⟩ := findLevel_split hf
      have h₂ := sideKeys_middle_absent hwf.1
      have hentry := hwf.2 (o.price_raw, l)
        (List.mem_append_right _ (List.mem_cons_self _ _))
      have hne : l.empty = false := by
        have := hentry.2.2.1
        simp [Level.empty, this]
      dsimp only
      rw [if_neg (by simp [hne])]
      rw [updateLevel_append h₁ h₂]
      have hkeys : sideKeys (ls₁ ++ (o.price_raw, l.add_order o) :: ls₂)
          = sideKeys (ls₁ ++ (o.price_raw, l) :: ls₂) := by
        simp [sideKeys]
      refine ⟨⟨?_, ?_⟩, ?_⟩
      · rw [hkeys]; exact hwf.1
      · intro e he
        rcases List.mem_append.1 he with he1 | he1
        · exact hwf.2 e (List.mem_append_left _ he1)
        · rcases List.mem_cons.1 he1 with rfl | he2
          · obtain ⟨hp, ⟨ht, hc⟩, hz, hpx⟩ := hentry
            dsimp only at hp ht hc hz hpx
            refine ⟨?_, ⟨?_, ?_⟩, ?_, ?_⟩
            · simpa [Level.add_order] using hp
            · simp [Level.add_order, sumSizes_append, ht, sumSizes]
            · simp [Level.add_order, hc]
            · simp [Level.add_order]
            · intro x hx
              simp only [Level.add_order] at hx
              rcases List.mem_append.1 hx with hx1 | hx1
              · exact hpx x hx1
              · simp at hx1
                simp [hx1]
          · exact hwf.2 e (List.mem_append_right _ (List.mem_cons_of_mem _ he2))
      · rw [sideIds_append, sideIds_cons, sideIds_append, sideIds_cons]
        have hl : orderIds ((l.add_order o).orders)
            = orderIds l.orders ++ [o.order_id] := by
          simp [Level.add_order, orderIds]
        rw [hl]
        have := perm_pull_middle (sideIds ls₁) (orderIds l.orders) (sideIds ls₂)
          o.order_id
        simpa using this

/-- `removeFromSide` on a well-formed side map containing the order: it stays
well-formed, exactly that order's id disappears, and only the order's level
changes (deleted when it becomes empty). -/
theorem removeFromSide_spec {ls : SideMap} {o : Order} {l : Level}
    (hwf : sideWF ls) (hids : (sideIds ls).Nodup)
    (hf : findLevel ls o.price_raw = some l) (hmem : o ∈ l.orders) :
    sideWF (removeFromSide ls o) ∧
    (∃ A B, sideIds ls = A ++ o.order_id :: B ∧
        sideIds (removeFromSide ls o) = A ++ B) ∧
    (∀ q, q ≠ o.price_raw →
        findLevel (removeFromSide ls o) q = findLevel ls q) ∧
    findLevel (removeFromSide ls o) o.price_raw
      = (if (l.remove_order o).empty = true then none
         else some (l.remove_order o)) := by
  obtain ⟨ls₁, ls₂, rfl, h₁⟩ := findLevel_split hf
  have h₂ := sideKeys_middle_absent hwf.1
  have hentry := hwf.2 (o.price_raw, l)
    (List.mem_append_right _ (List.mem_cons_self _ _))
  obtain ⟨hp, ⟨ht, hc⟩, hz, hpx⟩ := hentry
  dsimp only at hp ht hc hz hpx
  have hlnd : (orderIds l.orders).Nodup := by
    rw [sideIds_append, sideIds_cons] at hids
    exact (hids.of_append_right).of_append_left
  obtain ⟨u, v, hdecomp, hu, hv⟩ := mem_split_by_id hlnd hmem
  have horders : (l.remove_order o).orders = u ++ v := by
    simp only [Level.remove_order, hdecomp]
    exact eraseP_id_append hu
  have hrw : removeFromSide (ls₁ ++ (o.price_raw, l) :: ls₂) o
      = (if (l.remove_order o).empty = true then ls₁ ++ ls₂
         else ls₁ ++ (o.price_raw, l.remove_order o) :: ls₂) := by
    unfold removeFromSide
    rw [hf]
    dsimp only
    cases hemp : (l.remove_order o).empty
    · simp only [Bool.false_eq_true, if_false]
      rw [updateLevel_append h₁ h₂]
    · simp only [if_true]
      rw [eraseLevel_append h₁]
  have hsum : l.total_size = sumSizes u + o.size + sumSizes v := by
    rw [ht, hdecomp, sumSizes_append, sumSizes_cons]
    omega
  have hlen : l.order_count = u.length + 1 + v.length := by
    rw [hc, hdecomp]
    simp
    omega
  have hremwf : (l.remove_order o).empty = false →
      sideEntryWF (o.price_raw, l.remove_order o) := by
    intro hemp
    refine ⟨by simpa [Level.remove_order] using hp, ⟨?_, ?_⟩, ?_, ?_⟩
    · show l.total_size - o.size = sumSizes (l.remove_order o).orders
      rw [horders, sumSizes_append]
      omega
    · show l.order_count - 1 = (l.remove_order o).orders.length
      rw [horders, List.length_append]
      omega
    · show l.order_count - 1 ≠ 0
      simp only [Level.empty, Level.remove_order] at hemp
      simpa using hemp
    · intro x hx
      rw [horders] at hx
      apply hpx
      rw [hdecomp]
      rcases List.mem_append.1 hx with hx1 | hx1
      · exact List.mem_append_left _ hx1
      · exact List.mem_append_right _ (List.mem_cons_of_mem _ hx1)
  have hempcase : (l.remove_order o).empty = true → u = [] ∧ v = [] := by
    intro hemp
    simp only [Level.empty, Level.remove_order] at hemp
    have : l.order_count - 1 = 0 := by simpa using hemp
    rw [hlen] at this
    constructor <;>
      · apply List.eq_nil_of_length_eq_zero
        omega
  refine ⟨?_, ?_, ?_, ?_⟩
  · rw [hrw]
    cases hemp : (l.remove_order o).empty
    · simp only [Bool.false_eq_true, if_false]
      constructor
      · have hkeys : sideKeys (ls₁ ++ (o.price_raw, l.remove_order o) :: ls₂)
            = sideKeys (ls₁ ++ (o.price_raw, l) :: ls₂) := by
          simp [sideKeys]
        rw [hkeys]
        exact hwf.1
      · intro e he
        rcases List.mem_append.1 he with he1 | he1
        · exact hwf.2 e (List.mem_append_left _ he1)
        · rcases List.mem_cons.1 he1 with rfl | he2
          · exact hremwf hemp
          · exact hwf.2 e
              (List.mem_append_right _ (List.mem_cons_of_mem _ he2))
    · simp only [if_true]
      constructor
      · have horig : sideKeys (ls₁ ++ (o.price_raw, l) :: ls₂)
            = sideKeys ls₁ ++ o.price_raw :: sideKeys ls₂ := by simp [sideKeys]
        have hnd := hwf.1
        rw [horig] at hnd
        have hsub : List.Sublist (sideKeys ls₁ ++ sideKeys ls₂)
            (sideKeys ls₁ ++ o.price_raw :: sideKeys ls₂) :=
          List.Sublist.append (List.Sublist.refl _)
            ((List.Sublist.refl _).cons _)
        rw [show sideKeys (ls₁ ++ ls₂) = sideKeys ls₁ ++ sideKeys ls₂ from
          by simp [sideKeys]]
        exact hsub.nodup hnd
      · intro e he
        rcases List.mem_append.1 he with he1 | he1
        · exact hwf.2 e (List.mem_append_left _ he1)
        · exact hwf.2 e (List.mem_append_right _ (List.mem_cons_of_mem _ he1))
  · refine ⟨sideIds ls₁ ++ orderIds u, orderIds v ++ sideIds ls₂, ?_, ?_⟩
    · rw [sideIds_append, sideIds_cons, hdecomp, orderIds_append, orderIds_cons]
      simp
    · rw [hrw]
      cases hemp : (l.remove_order o).empty
      · simp only [Bool.false_eq_true, if_false]
        rw [sideIds_append, sideIds_cons, horders, orderIds_append]
        simp
      · simp only [if_true]
        obtain ⟨hu0, hv0⟩ := hempcase hemp
        rw [sideIds_append, hu0, hv0]
        simp [orderIds]
  · intro q hq
    rw [hrw]
    cases hemp : (l.remove_order o).empty
    · simp only [Bool.false_eq_true, if_false]
      exact findLevel_middle_ne hq
    · simp only [if_true]
      exact findLevel_erase_middle_ne hq
  · rw [hrw]
    cases hemp : (l.remove_order o).empty
    · simp only [Bool.false_eq_true, if_false]
      exact findLevel_middle_self h₁
    · simp only [if_true]
      rw [findLevel_append_left h₁]
      exact findLevel_of_absent h₂

theorem setOrderSize_ids (os : List Order) (oid n : Nat) :
    orderIds (setOrderSize os oid n) = orderIds os := by
  induction os with
  | nil => rfl
  | cons o rest ih =>
      simp only [setOrderSize]
      by_cases hk : (o.order_id == oid) = true
      · rw [if_pos hk]
        simp [orderIds]
      · rw [if_neg hk]
        simp only [orderIds, List.map_cons] at ih ⊢
        rw [ih]

theorem setOrderSize_prices (os : List Order) (oid n : Nat) :
    (setOrderSize os oid n).map Order.price_raw = os.map Order.price_raw := by
  induction os with
  | nil => rfl
  | cons o rest ih =>
      simp only [setOrderSize]
      by_cases hk : (o.order_id == oid) = true
      · rw [if_pos hk]
        simp
      · rw [if_neg hk]
        simp only [List.map_cons]
        rw [ih]

theorem setOrderSize_length (os : List Order) (oid n : Nat) :
    (setOrderSize os oid n).length = os.length := by
  induction os with
  | nil => rfl
  | cons o rest ih =>
      simp only [setOrderSize]
      by_cases hk : (o.order_id == oid) = true
      · rw [if_pos hk]
        simp
      · rw [if_neg hk]
        simp only [List.length_cons]
        rw [ih]

/-- The in-place branch of `modify_order` on one side map, called with the
order's current size as the old size. -/
theorem modifyInPlace_spec {ls : SideMap} {o : Order} {l : Level} {n : Nat}
    (hwf : sideWF ls) (hids : (sideIds ls).Nodup)
    (hf : findLevel ls o.price_raw = some l) (hmem : o ∈ l.orders) :
    sideWF (modifyInPlace ls o o.size n) ∧
    sideIds (modifyInPlace ls o o.size n) = sideIds ls ∧
    (∀ q, q ≠ o.price_raw →
        findLevel (modifyInPlace ls o o.size n) q = findLevel ls q) ∧
    findLevel (modifyInPlace ls o o.size n) o.price_raw
      = some { l.modify_order_size o.size n with
                 orders := setOrderSize l.orders o.order_id n } := by
  obtain ⟨ls₁, ls₂, rfl, h₁⟩ := findLevel_split hf
  have h₂ := sideKeys_middle_absent hwf.1
  obtain ⟨hp, ⟨ht, hc⟩, hz, hpx⟩ := hwf.2 (o.price_raw, l)
    (List.mem_append_right _ (List.mem_cons_self _ _))
  dsimp only at hp ht hc hz hpx
  have hlnd : (orderIds l.orders).Nodup := by
    rw [sideIds_append, sideIds_cons] at hids
    exact (hids.of_append_right).of_append_left
  obtain ⟨u, v, hdecomp, hu, hv⟩ := mem_split_by_id hlnd hmem
  have hset : setOrderSize l.orders o.order_id n
      = u ++ { o with size := n } :: v := by
    rw [hdecomp]
    exact setOrderSize_append hu
  have hrw : modifyInPlace (ls₁ ++ (o.price_raw, l) :: ls₂) o o.size n
      = ls₁ ++ (o.price_raw,
          { l.modify_order_size o.size n with
              orders := setOrderSize l.orders o.order_id n }) :: ls₂ := by
    unfold modifyInPlace
    rw [hf]
    dsimp only
    rw [updateLevel_append h₁ h₂]
  refine ⟨?_, ?_, ?_, ?_⟩
  · rw [hrw]
    constructor
    · have hkeys : ∀ lv : Level, sideKeys (ls₁ ++ (o.price_raw, lv) :: ls₂)
          = sideKeys (ls₁ ++ (o.price_raw, l) :: ls₂) := by
        intro lv
        simp [sideKeys]
      rw [hkeys]
      exact hwf.1
    · intro e he
      rcases List.mem_append.1 he with he1 | he1
      · exact hwf.2 e (List.mem_append_left _ he1)
      · rcases List.mem_cons.1 he1 with rfl | he2
        · have hsum : l.total_size = sumSizes u + o.size + sumSizes v := by
            rw [ht, hdecomp, sumSizes_append, sumSizes_cons]
            omega
          refine ⟨by simpa [Level.modify_order_size] using hp, ⟨?_, ?_⟩, ?_, ?_⟩
          · show l.total_size - o.size + n = _
            rw [hset, sumSizes_append, sumSizes_cons]
            show _ = sumSizes u + (n + sumSizes v)
            omega
          · show l.order_count = _
            rw [hset, List.length_append, List.length_cons]
            rw [hc, hdecomp, List.length_append, List.length_cons]
          · exact hz
          · intro x hx
            dsimp only [Level.modify_order_size] at hx
            have : x.price_raw ∈ (setOrderSize l.orders o.order_id n).map
                Order.price_raw := List.mem_map_of_mem _ hx
            rw [setOrderSize_prices] at this
            obtain ⟨y, hy, hyx⟩ := List.mem_map.1 this
            rw [← hyx]
            exact hpx y hy
        · exact hwf.2 e
            (List.mem_append_right _ (List.mem_cons_of_mem _ he2))
  · rw [hrw, sideIds_append, sideIds_cons, sideIds_append, sideIds_cons]
    dsimp only
    rw [setOrderSize_ids]
  · intro q hq
    rw [hrw]
    exact findLevel_middle_ne hq
  · rw [hrw]
    exact findLevel_middle_self h₁

/-! ## Nodup bookkeeping across the two sides -/

theorem nodup_reinsert {A B C : List Nat} {x : Nat}
    (h : ((A ++ x :: B) ++ C).Nodup) : ((x :: (A ++ B)) ++ C).Nodup :=
  (List.perm_middle.append_right C).nodup h

theorem nodup_reinsert_right {A B C : List Nat} {x : Nat}
    (h : (C ++ (A ++ x :: B)).Nodup) : (C ++ x :: (A ++ B)).Nodup :=
  (List.perm_middle.append_left C).nodup h

theorem nodup_drop_middle {A B C : List Nat} {x : Nat}
    (h : ((A ++ x :: B) ++ C).Nodup) : ((A ++ B) ++ C).Nodup := by
  refine List.Sublist.nodup ?_ h
  exact List.Sublist.append
    (List.Sublist.append (List.Sublist.refl _) ((List.Sublist.refl _).cons _))
    (List.Sublist.refl _)

theorem nodup_drop_middle_right {A B C : List Nat} {x : Nat}
    (h : (C ++ (A ++ x :: B)).Nodup) : (C ++ (A ++ B)).Nodup := by
  refine List.Sublist.nodup ?_ h
  exact List.Sublist.append (List.Sublist.refl _)
    (List.Sublist.append (List.Sublist.refl _) ((List.Sublist.refl _).cons _))

/-! ## Well-formedness preservation of the book operations -/

theorem init_wf : OrderBook.init.wf := by
  refine ⟨⟨?_, ?_⟩, ⟨?_, ?_⟩, ?_⟩ <;>
    simp [OrderBook.init, sideKeys, sideIds]

theorem clear_wf (b : OrderBook) : b.clear.wf := by
  refine ⟨⟨?_, ?_⟩, ⟨?_, ?_⟩, ?_⟩ <;>
    simp [OrderBook.clear, sideKeys, sideIds]

theorem findOrder_none {b : OrderBook} {oid : Nat}
    (h : (b.findOrder oid).isSome = false) :
    oid ∉ sideIds b.bid_levels ∧ oid ∉ sideIds b.ask_levels := by
  rw [OrderBook.findOrder] at h
  cases hb : findOrderInSide b.bid_levels oid with
  | some o => rw [hb] at h; simp [Option.orElse] at h
  | none =>
      rw [hb] at h
      simp only [Option.orElse] at h
      cases ha : findOrderInSide b.ask_levels oid with
      | some o => rw [ha] at h; simp at h
      | none =>
          exact ⟨findOrderInSide_none_iff.1 hb, findOrderInSide_none_iff.1 ha⟩

theorem add_order_wf (b : OrderBook) (oid : Nat) (px : Int) (sz : Nat)
    (side : Char) (ts : Nat) (hwf : b.wf) :
    (b.add_order oid px sz side ts).2.wf := by
  unfold OrderBook.add_order
  cases hdup : (b.findOrder oid).isSome
  · rw [if_neg (by simp [hdup])]
    obtain ⟨hnb, hna⟩ := findOrder_none hdup
    dsimp only
    by_cases hB : (side == 'B') = true
    · rw [if_pos hB]
      obtain ⟨hswf, hperm⟩ := add_to_side_spec (Order.mkNew oid px sz ts)
        BidComparator hwf.1
      refine ⟨hswf, hwf.2.1, ?_⟩
      have htarget : ((oid :: sideIds b.bid_levels) ++
          sideIds b.ask_levels).Nodup := by
        rw [List.cons_append, List.nodup_cons]
        refine ⟨?_, hwf.2.2⟩
        intro hmem
        rcases List.mem_append.1 hmem with hm | hm
        · exact hnb hm
        · exact hna hm
      exact ((hperm.append_right (sideIds b.ask_levels)).symm.nodup htarget)
    · rw [if_neg hB]
      by_cases hA : (side == 'A') = true
      · rw [if_pos hA]
        obtain ⟨hswf, hperm⟩ := add_to_side_spec (Order.mkNew oid px sz ts)
          AskComparator hwf.2.1
        refine ⟨hwf.1, hswf, ?_⟩
        have htarget : (sideIds b.bid_levels ++
            (oid :: sideIds b.ask_levels)).Nodup := by
          have h1 : (oid :: (sideIds b.bid_levels ++ sideIds b.ask_levels)).Nodup := by
            rw [List.nodup_cons]
            refine ⟨?_, hwf.2.2⟩
            intro hmem
            rcases List.mem_append.1 hmem with hm | hm
            · exact hnb hm
            · exact hna hm
          exact (List.perm_middle.symm).nodup h1
        exact ((hperm.append_left (sideIds b.bid_levels)).symm.nodup htarget)
      · rw [if_neg hA]
        exact hwf
  · rw [if_pos (by simp [hdup])]
    exact hwf

theorem cancel_order_wf (b : OrderBook) (oid : Nat) (hwf : b.wf) :
    (b.cancel_order oid).2.wf := by
  unfold OrderBook.cancel_order
  cases hfo : b.findOrder oid with
  | none => exact hwf
  | some o =>
      obtain ⟨hoid, hloc⟩ := findOrder_located hwf hfo
      dsimp only
      rcases hloc with ⟨l, hfl, hmem, hside⟩ | ⟨l, hfl, hmem, hside⟩
      · rw [hside]
        unfold OrderBook.remove_order_from_level
        rw [if_pos (by simp)]
        obtain ⟨hswf, ⟨A, B, hAB1, hAB2⟩, _, _⟩ :=
          removeFromSide_spec hwf.1 (hwf.2.2.of_append_left) hfl hmem
        refine ⟨hswf, hwf.2.1, ?_⟩
        rw [hAB2]
        have horig := hwf.2.2
        rw [hAB1] at horig
        exact nodup_drop_middle horig
      · rw [hside]
        unfold OrderBook.remove_order_from_level
        rw [if_neg (by decide)]
        obtain ⟨hswf, ⟨A, B, hAB1, hAB2⟩, _, _⟩ :=
          removeFromSide_spec hwf.2.1 (hwf.2.2.of_append_right) hfl hmem
        refine ⟨hwf.1, hswf, ?_⟩
        rw [hAB2]
        have horig := hwf.2.2
        rw [hAB1] at horig
        exact nodup_drop_middle_right horig

/-- `execute_trade_on_side` keeps a side well-formed and only removes resting
ids. -/
theorem execute_trade_on_side_wf {ls : SideMap} (px : Int) (sz : Nat)
    (hwf : sideWF ls) :
    sideWF (execute_trade_on_side px sz ls).2 ∧
    List.Sublist (sideIds (execute_trade_on_side px sz ls).2) (sideIds ls) := by
  cases hf : findLevel ls px with
  | none =>
      rw [execute_trade_on_side, hf]
      exact ⟨hwf, List.Sublist.refl _⟩
  | some l =>
      obtain ⟨ls₁, ls₂, rfl, h₁⟩ := findLevel_split hf
      have h₂ := sideKeys_middle_absent hwf.1
      obtain ⟨hp, hlwf, hz, hpx⟩ := hwf.2 (px, l)
        (List.mem_append_right _ (List.mem_cons_self _ _))
      dsimp only at hp hz hpx
      obtain ⟨hor, hpr, hwfl⟩ := tradeLoop_spec sz l
      have hl2wf := hwfl hlwf
      obtain ⟨k, hkid, hkpx⟩ := consumeFIFO_drop sz l.orders
      have hidsub : List.Sublist (orderIds (tradeLoop sz l).orders)
          (orderIds l.orders) := by
        rw [hor, hkid]
        exact List.drop_sublist _ _
      have hrw : (execute_trade_on_side px sz (ls₁ ++ (px, l) :: ls₂)).2
          = if (tradeLoop sz l).empty = true then ls₁ ++ ls₂
            else ls₁ ++ (px, tradeLoop sz l) :: ls₂ := by
        rw [execute_trade_on_side, hf]
        dsimp only
        cases hemp : (tradeLoop sz l).empty
        · simp only [Bool.false_eq_true, if_false]
          rw [updateLevel_append h₁ h₂]
        · simp only [if_true]
          rw [eraseLevel_append h₁]
      rw [hrw]
      cases hemp : (tradeLoop sz l).empty
      · simp only [Bool.false_eq_true, if_false]
        constructor
        · constructor
          · have hkeys : ∀ lv : Level, sideKeys (ls₁ ++ (px, lv) :: ls₂)
                = sideKeys (ls₁ ++ (px, l) :: ls₂) := by
              intro lv
              simp [sideKeys]
            rw [hkeys]
            exact hwf.1
          · intro e he
            rcases List.mem_append.1 he with he1 | he1
            · exact hwf.2 e (List.mem_append_left _ he1)
            · rcases List.mem_cons.1 he1 with rfl | he2
              · refine ⟨by rw [hpr]; exact hp, hl2wf, ?_, ?_⟩
                · intro hzero
                  dsimp only at hzero
                  rw [Level.empty] at hemp
                  simp [hzero] at hemp
                · intro x hx
                  have hpmem : x.price_raw ∈
                      (tradeLoop sz l).orders.map Order.price_raw :=
                    List.mem_map_of_mem _ hx
                  rw [hor, hkpx] at hpmem
                  have : x.price_raw ∈ l.orders.map Order.price_raw :=
                    (List.drop_sublist _ _).mem hpmem
                  obtain ⟨y, hy, hyx⟩ := List.mem_map.1 this
                  rw [← hyx]
                  exact hpx y hy
              · exact hwf.2 e
                  (List.mem_append_right _ (List.mem_cons_of_mem _ he2))
        · rw [sideIds_append, sideIds_cons, sideIds_append, sideIds_cons]
          exact List.Sublist.append (List.Sublist.refl _)
            (List.Sublist.append hidsub (List.Sublist.refl _))
      · simp only [if_true]
        constructor
        · constructor
          · have horig : sideKeys (ls₁ ++ (px, l) :: ls₂)
                = sideKeys ls₁ ++ px :: sideKeys ls₂ := by simp [sideKeys]
            have hnd := hwf.1
            rw [horig] at hnd
            rw [show sideKeys (ls₁ ++ ls₂) = sideKeys ls₁ ++ sideKeys ls₂ from
              by simp [sideKeys]]
            exact (List.Sublist.append (List.Sublist.refl _)
              ((List.Sublist.refl _).cons _)).nodup hnd
          · intro e he
            rcases List.mem_append.1 he with he1 | he1
            · exact hwf.2 e (List.mem_append_left _ he1)
            · exact hwf.2 e
                (List.mem_append_right _ (List.mem_cons_of_mem _ he1))
        · rw [sideIds_append, sideIds_append, sideIds_cons]
          refine List.Sublist.append (List.Sublist.refl _) ?_
          exact List.sublist_append_right _ _

theorem execute_trade_wf (b : OrderBook) (px : Int) (sz : Nat) (c : Char)
    (hwf : b.wf) : (b.execute_trade px sz c).2.wf := by
  unfold OrderBook.execute_trade
  dsimp only
  by_cases hc : (c == 'B') = true
  · rw [if_pos hc]
    rw [if_neg (by decide)]
    obtain ⟨hswf, hsub⟩ := execute_trade_on_side_wf px sz hwf.2.1
    refine ⟨hwf.1, hswf, ?_⟩
    exact (List.Sublist.append (List.Sublist.refl _) hsub).nodup hwf.2.2
  · rw [if_neg hc]
    rw [if_pos (by decide)]
    obtain ⟨hswf, hsub⟩ := execute_trade_on_side_wf px sz hwf.1
    refine ⟨hswf, hwf.2.1, ?_⟩
    exact (List.Sublist.append hsub (List.Sublist.refl _)).nodup hwf.2.2

theorem modify_order_wf (b : OrderBook) (oid : Nat) (np : Int) (nsz : Nat)
    (hwf : b.wf) : (b.modify_order oid np nsz).2.wf := by
  unfold OrderBook.modify_order
  cases hfo : b.findOrder oid with
  | none => exact hwf
  | some o =>
      obtain ⟨hoid, hloc⟩ := findOrder_located hwf hfo
      dsimp only
      by_cases hpx : (o.price_raw != np) = true
      · rw [if_pos hpx]
        rcases hloc with ⟨l, hfl, hmem, hside⟩ | ⟨l, hfl, hmem, hside⟩
        · rw [hside]
          unfold OrderBook.remove_order_from_level
          have hBB : (('B' : Char) == 'B') = true := rfl
          simp only [hBB, eq_self_iff_true, if_true]
          rw [add_to_side_fst]
          rw [if_pos rfl]
          obtain ⟨hswf, ⟨A, B, hAB1, hAB2⟩, _, _⟩ :=
            removeFromSide_spec hwf.1 (hwf.2.2.of_append_left) hfl hmem
          obtain ⟨hswf2, hperm⟩ := add_to_side_spec
            { o with price_raw := np, size := nsz } BidComparator hswf
          refine ⟨hswf2, hwf.2.1, ?_⟩
          rw [hAB2] at hperm
          have horig := hwf.2.2
          rw [hAB1] at horig
          have htarget : ((o.order_id :: (A ++ B)) ++
              sideIds b.ask_levels).Nodup := nodup_reinsert horig
          exact ((hperm.append_right (sideIds b.ask_levels)).symm.nodup htarget)
        · rw [hside]
          unfold OrderBook.remove_order_from_level
          have hAB : (('A' : Char) == 'B') = false := rfl
          simp only [hAB, Bool.false_eq_true, if_false]
          rw [add_to_side_fst]
          rw [if_pos rfl]
          obtain ⟨hswf, ⟨A, B, hAB1, hAB2⟩, _, _⟩ :=
            removeFromSide_spec hwf.2.1 (hwf.2.2.of_append_right) hfl hmem
          obtain ⟨hswf2, hperm⟩ := add_to_side_spec
            { o with price_raw := np, size := nsz } AskComparator hswf
          refine ⟨hwf.1, hswf2, ?_⟩
          rw [hAB2] at hperm
          have horig := hwf.2.2
          rw [hAB1] at horig
          have htarget : (sideIds b.bid_levels ++
              o.order_id :: (A ++ B)).Nodup := nodup_reinsert_right horig
          exact ((hperm.append_left (sideIds b.bid_levels)).symm.nodup htarget)
      · rw [if_neg hpx]
        rcases hloc with ⟨l, hfl, hmem, hside⟩ | ⟨l, hfl, hmem, hside⟩
        · rw [hside]
          have hBB : (('B' : Char) == 'B') = true := rfl
          simp only [hBB, eq_self_iff_true, if_true]
          obtain ⟨hswf, hids, _, _⟩ :=
            modifyInPlace_spec (n := nsz) hwf.1 (hwf.2.2.of_append_left)
              hfl hmem
          refine ⟨hswf, hwf.2.1, ?_⟩
          rw [hids]
          exact hwf.2.2
        · rw [hside]
          have hAB : (('A' : Char) == 'B') = false := rfl
          simp only [hAB, Bool.false_eq_true, if_false]
          obtain ⟨hswf, hids, _, _⟩ :=
            modifyInPlace_spec (n := nsz) hwf.2.1 (hwf.2.2.of_append_right)
              hfl hmem
          refine ⟨hwf.1, hswf, ?_⟩
          rw [hids]
          exact hwf.2.2

/-! ## Claim C5: level-aggregate invariants -/

/-- C5: on a well-formed book every level of either side map has
`total_size` equal to the sum of its chained orders' sizes and `order_count`
equal to their number, and no empty level is present; well-formedness holds
for a fresh book and is preserved by `add_order`, `modify_order`,
`cancel_order`, `execute_trade` and `clear`, so it holds between any two
externally observable operations. -/
theorem c5_level_invariants :
    OrderBook.init.wf
    ∧ (∀ b : OrderBook, b.wf → levelsAccurate b)
    ∧ (∀ (b : OrderBook) (oid : Nat) (px : Int) (sz : Nat) (side : Char)
        (ts : Nat), b.wf → (b.add_order oid px sz side ts).2.wf)
    ∧ (∀ (b : OrderBook) (oid : Nat) (np : Int) (nsz : Nat),
        b.wf → (b.modify_order oid np nsz).2.wf)
    ∧ (∀ (b : OrderBook) (oid : Nat), b.wf → (b.cancel_order oid).2.wf)
    ∧ (∀ (b : OrderBook) (px : Int) (sz : Nat) (c : Char),
        b.wf → (b.execute_trade px sz c).2.wf)
    ∧ (∀ b : OrderBook, b.clear.wf) := by
  refine ⟨init_wf, ?_, add_order_wf, modify_order_wf, cancel_order_wf,
    execute_trade_wf, clear_wf⟩
  intro b hwf e he
  rcases he with he | he
  · obtain ⟨_, ⟨ht, hc⟩, hz, _⟩ := hwf.1.2 e he
    exact ⟨ht, hc, hz⟩
  · obtain ⟨_, ⟨ht, hc⟩, hz, _⟩ := hwf.2.1.2 e he
    exact ⟨ht, hc, hz⟩

/-- Witness for C5: adding one bid to a fresh book keeps it well-formed. -/
theorem c5_level_invariants_witness :
    ((OrderBook.init.add_order 1 100 10 'B' 1).2).wf :=
  c5_level_invariants.2.2.1 OrderBook.init 1 100 10 'B' 1 init_wf

/-! ## Claim C6: modify_order semantics -/

/-- The side map a side character selects (`B` → bids, otherwise asks). -/
def sideMapOf (b : OrderBook) (side : Char) : SideMap :=
  if side == 'B' then b.bid_levels else b.ask_levels

theorem findLevel_insertLevelSorted_self {lt : Int → Int → Bool} {p : Int}
    {lv : Level} {ls : SideMap} (h : ∀ e ∈ ls, (e.1 == p) = false) :
    findLevel (insertLevelSorted lt p lv ls) p = some lv := by
  induction ls with
  | nil => exact findLevel_cons_self _ _ _
  | cons e rest ih =>
      simp only [insertLevelSorted]
      by_cases hlt : lt p e.1 = true
      · rw [if_pos hlt]
        exact findLevel_cons_self _ _ _
      · rw [if_neg hlt]
        rw [findLevel_cons_ne _ _ _ _ (h e (List.mem_cons_self _ _))]
        exact ih fun x hx => h x (List.mem_cons_of_mem _ hx)

/-- After `add_to_side`, the level at the order's price is the old level (or
a fresh one) with the order appended at the tail. -/
theorem add_to_side_findLevel_self (o2 : Order) (lt : Int → Int → Bool)
    {ls : SideMap} (hwf : sideWF ls) :
    findLevel (add_to_side o2 lt ls).2 o2.price_raw
      = some ((match findLevel ls o2.price_raw with
               | some ld => ld
               | none => Level.emptyAt o2.price_raw).add_order o2) := by
  unfold add_to_side
  cases hf : findLevel ls o2.price_raw with
  | none =>
      dsimp only
      exact findLevel_insertLevelSorted_self (findLevel_none_key hf)
  | some ld =>
      obtain ⟨ls₁, ls₂, rfl, h₁⟩ := findLevel_split hf
      have h₂ := sideKeys_middle_absent hwf.1
      have hz := (hwf.2 (o2.price_raw, ld)
        (List.mem_append_right _ (List.mem_cons_self _ _))).2.2.1
      dsimp only at hz
      have hne : ld.empty = false := by
        simp [Level.empty, hz]
      dsimp only
      rw [if_neg (by simp [hne])]
      rw [updateLevel_append h₁ h₂]
      exact findLevel_middle_self h₁

/-- C6: `modify_order(id, new_price, new_size)` returns false exactly when
`id` is not resting.  For a resting order, when the price is unchanged it
rewrites the order's size in place (chain position preserved) and adjusts
the level's `total_size` by `new_size − old_size`; when the price changes it
removes the order from its current level (deleting it if it empties),
rewrites price and size, and appends the order at the **tail** of the
destination level on the same side — so time priority is not preserved
across price changes. -/
theorem c6_modify_order_semantics (b : OrderBook) (oid : Nat) (np : Int)
    (nsz : Nat) :
    ((b.modify_order oid np nsz).1 = false ↔ b.findOrder oid = none)
    ∧ (∀ o, b.findOrder oid = some o → o.price_raw ≠ np →
        (b.modify_order oid np nsz).2 =
          (if b.determine_side o == 'B' then
            { b.remove_order_from_level o (b.determine_side o) with
                bid_levels := (add_to_side { o with price_raw := np, size := nsz }
                  BidComparator
                  (b.remove_order_from_level o (b.determine_side o)).bid_levels).2 }
          else
            { b.remove_order_from_level o (b.determine_side o) with
                ask_levels := (add_to_side { o with price_raw := np, size := nsz }
                  AskComparator
                  (b.remove_order_from_level o (b.determine_side o)).ask_levels).2 }))
    ∧ (b.wf → ∀ o, b.findOrder oid = some o →
        (o.price_raw = np →
          ∃ l, findLevel (sideMapOf b (b.determine_side o)) np = some l ∧
            findLevel (sideMapOf (b.modify_order oid np nsz).2
                (b.determine_side o)) np
              = some { l.modify_order_size o.size nsz with
                         orders := setOrderSize l.orders oid nsz })
        ∧ (o.price_raw ≠ np →
          ∃ l2, findLevel (sideMapOf (b.modify_order oid np nsz).2
                (b.determine_side o)) np = some l2 ∧
            l2.orders.getLast? = some { o with price_raw := np, size := nsz })) := by
  refine ⟨?_, ?_, ?_⟩
  · unfold OrderBook.modify_order
    cases hfo : b.findOrder oid with
    | none => simp
    | some o =>
        dsimp only
        constructor
        · intro hfalse
          exfalso
          by_cases hpx : (o.price_raw != np) = true
          · rw [if_pos hpx] at hfalse
            by_cases hs : (b.determine_side o == 'B') = true
            · rw [if_pos hs] at hfalse
              dsimp only at hfalse
              rw [add_to_side_fst, if_pos rfl] at hfalse
              cases hfalse
            · rw [if_neg hs] at hfalse
              dsimp only at hfalse
              rw [add_to_side_fst, if_pos rfl] at hfalse
              cases hfalse
          · rw [if_neg hpx] at hfalse
            by_cases hs : (b.determine_side o == 'B') = true
            · rw [if_pos hs] at hfalse
              cases hfalse
            · rw [if_neg hs] at hfalse
              cases hfalse
        · intro h
          cases h
  · intro o hfo hne
    unfold OrderBook.modify_order
    rw [hfo]
    dsimp only
    rw [if_pos (by simpa [bne] using hne)]
    by_cases hs : (b.determine_side o == 'B') = true
    · rw [if_pos hs, if_pos hs]
      dsimp only
      rw [add_to_side_fst, if_pos rfl]
    · rw [if_neg hs, if_neg hs]
      dsimp only
      rw [add_to_side_fst, if_pos rfl]
  · intro hwf o hfo
    obtain ⟨hoid, hloc⟩ := findOrder_located hwf hfo
    constructor
    · intro hpeq
      rcases hloc with ⟨l, hfl, hmem, hside⟩ | ⟨l, hfl, hmem, hside⟩
      · refine ⟨l, ?_, ?_⟩
        · rw [hside]
          simp only [sideMapOf, show (('B' : Char) == 'B') = true from rfl,
            eq_self_iff_true, if_true]
          rw [← hpeq]
          exact hfl
        · unfold OrderBook.modify_order
          rw [hfo]
          dsimp only
          rw [if_neg (by simp [hpeq]), hside]
          simp only [sideMapOf, show (('B' : Char) == 'B') = true from rfl,
            eq_self_iff_true, if_true]
          obtain ⟨_, _, _, hfind⟩ :=
            modifyInPlace_spec (n := nsz) hwf.1 (hwf.2.2.of_append_left)
              hfl hmem
          rw [← hpeq, hfind, hoid]
      · refine ⟨l, ?_, ?_⟩
        · rw [hside]
          simp only [sideMapOf, show (('A' : Char) == 'B') = false from rfl,
            Bool.false_eq_true, if_false]
          rw [← hpeq]
          exact hfl
        · unfold OrderBook.modify_order
          rw [hfo]
          dsimp only
          rw [if_neg (by simp [hpeq]), hside]
          simp only [sideMapOf, show (('A' : Char) == 'B') = false from rfl,
            Bool.false_eq_true, if_false]
          obtain ⟨_, _, _, hfind⟩ :=
            modifyInPlace_spec (n := nsz) hwf.2.1 (hwf.2.2.of_append_right)
              hfl hmem
          rw [← hpeq, hfind, hoid]
    · intro hpne
      rcases hloc with ⟨l, hfl, hmem, hside⟩ | ⟨l, hfl, hmem, hside⟩
      · obtain ⟨hswf, _, _, _⟩ :=
          removeFromSide_spec hwf.1 (hwf.2.2.of_append_left) hfl hmem
        have hres : sideMapOf (b.modify_order oid np nsz).2 (b.determine_side o)
            = (add_to_side { o with price_raw := np, size := nsz }
                BidComparator (removeFromSide b.bid_levels o)).2 := by
          unfold OrderBook.modify_order
          rw [hfo]
          dsimp only
          rw [if_pos (by simpa [bne] using hpne), hside]
          unfold OrderBook.remove_order_from_level
          simp only [show (('B' : Char) == 'B') = true from rfl,
            eq_self_iff_true, if_true]
          rw [add_to_side_fst, if_pos rfl]
          simp [sideMapOf]
        rw [hres]
        have hfind := add_to_side_findLevel_self
          { o with price_raw := np, size := nsz } BidComparator hswf
        refine ⟨_, by simpa using hfind, ?_⟩
        simp [Level.add_order, List.getLast?_concat]
      · obtain ⟨hswf, _, _, _⟩ :=
          removeFromSide_spec hwf.2.1 (hwf.2.2.of_append_right) hfl hmem
        have hres : sideMapOf (b.modify_order oid np nsz).2 (b.determine_side o)
            = (add_to_side { o with price_raw := np, size := nsz }
                AskComparator (removeFromSide b.ask_levels o)).2 := by
          unfold OrderBook.modify_order
          rw [hfo]
          dsimp only
          rw [if_pos (by simpa [bne] using hpne), hside]
          unfold OrderBook.remove_order_from_level
          simp only [show (('A' : Char) == 'B') = false from rfl,
            Bool.false_eq_true, if_false]
          rw [add_to_side_fst, if_pos rfl]
          simp [sideMapOf]
        rw [hres]
        have hfind := add_to_side_findLevel_self
          { o with price_raw := np, size := nsz } AskComparator hswf
        refine ⟨_, by simpa using hfind, ?_⟩
        simp [Level.add_order, List.getLast?_concat]

/-- Witness for C6: modifying an unknown id fails, and a same-price modify
on a one-order book succeeds in place. -/
theorem c6_modify_order_semantics_witness :
    (OrderBook.init.modify_order 3 50 7).1 = false :=
  (c6_modify_order_semantics OrderBook.init 3 50 7).1.2 rfl

end MBP
